import Mathlib

/-!
# cFDAP: Laplace images, their parameter derivatives, numerical inversion and the
least-squares callbacks

A shallow embedding of `cFDAP.c`.  C `double` is modelled by `ℝ` and C `double complex`
by `ℂ` (exact arithmetic); `csqrt`, `cexp` and `cpow` are the principal branches.  A C
sub-expression all of whose operands are `double` is computed in `ℝ` and then converted,
exactly as the usual arithmetic conversions of C do.  On the command line of `main` the
values returned by `atof` have the type `double` defined below (a number, finite or
infinite, or NaN, with the comparisons of C), and `strcpy` is bounded by the size of its
destination array.
-/

namespace cFDAP

/-! ## Complex library functions used by the source -/

/-- C99 `csqrt`: the principal square root (branch cut along the negative real axis). -/
noncomputable def csqrt (z : ℂ) : ℂ := z ^ ((1 : ℂ) / 2)

/-- C99 `cexp`. -/
noncomputable def cexp (z : ℂ) : ℂ := Complex.exp z

/-- C99 `cpow`: the principal power. -/
noncomputable def cpow (z w : ℂ) : ℂ := z ^ w

/-! ## Laplace images of FDAP(t) (lines 85-140 of `cFDAP.c`) -/

/-- Source function `fullModel`. -/
noncomputable def fullModel (s : ℂ) (kon koff Df R : ℝ) : ℂ :=
  ((1 / (1 + kon / koff) : ℝ) : ℂ) * (1 + (kon : ℂ) / (s + (koff : ℂ))) *
      (1 / s - ((1 / 2 : ℝ) : ℂ) / s /
          csqrt (((R * R : ℝ) : ℂ) * s * (1 + (kon : ℂ) / (s + (koff : ℂ))) / (Df : ℂ)) *
        (1 - cexp (-2 *
          csqrt (((R * R : ℝ) : ℂ) * s * (1 + (kon : ℂ) / (s + (koff : ℂ))) / (Df : ℂ))))) +
    ((kon / koff / (1 + kon / koff) : ℝ) : ℂ) / (s + (koff : ℂ))

/-- Source function `fullModel_kon`. -/
noncomputable def fullModel_kon (s : ℂ) (kon koff Df R : ℝ) : ℂ :=
  ((-koff : ℝ) : ℂ) *
    (((-kon - koff : ℝ) : ℂ) +
      (koff : ℂ) * cexp (-2 *
        csqrt (((R * R : ℝ) : ℂ) * s * (1 + (kon : ℂ) / (s + (koff : ℂ))) / (Df : ℂ))) +
      (kon : ℂ) * cexp (-2 *
        csqrt (((R * R : ℝ) : ℂ) * s * (1 + (kon : ℂ) / (s + (koff : ℂ))) / (Df : ℂ))) +
      ((2 * koff : ℝ) : ℂ) *
        csqrt (((R * R : ℝ) : ℂ) * s * (1 + (kon : ℂ) / (s + (koff : ℂ))) / (Df : ℂ)) *
        cexp (-2 *
          csqrt (((R * R : ℝ) : ℂ) * s * (1 + (kon : ℂ) / (s + (koff : ℂ))) / (Df : ℂ))) +
      ((2 * kon : ℝ) : ℂ) *
        csqrt (((R * R : ℝ) : ℂ) * s * (1 + (kon : ℂ) / (s + (koff : ℂ))) / (Df : ℂ)) *
        cexp (-2 *
          csqrt (((R * R : ℝ) : ℂ) * s * (1 + (kon : ℂ) / (s + (koff : ℂ))) / (Df : ℂ))) -
      2 * s +
      2 * s * cexp (-2 *
        csqrt (((R * R : ℝ) : ℂ) * s * (1 + (kon : ℂ) / (s + (koff : ℂ))) / (Df : ℂ)))) /
    4 / s / (s + (koff : ℂ)) / ((kon + koff : ℝ) : ℂ) / ((kon + koff : ℝ) : ℂ) /
    csqrt (((R * R : ℝ) : ℂ) * s * (1 + (kon : ℂ) / (s + (koff : ℂ))) / (Df : ℂ))

/-- Source function `fullModel_koff`. -/
noncomputable def fullModel_koff (s : ℂ) (kon koff Df R : ℝ) : ℂ :=
  (kon : ℂ) *
    (-cpow (koff : ℂ) 2 - 2 * cpow s 2 - 4 * s * (koff : ℂ) - ((kon * koff : ℝ) : ℂ) +
      ((kon * koff : ℝ) : ℂ) * cexp (-2 *
        csqrt (((R * R : ℝ) : ℂ) * s * (1 + (kon : ℂ) / (s + (koff : ℂ))) / (Df : ℂ))) +
      ((2 * koff * koff : ℝ) : ℂ) *
        csqrt (((R * R : ℝ) : ℂ) * s * (1 + (kon : ℂ) / (s + (koff : ℂ))) / (Df : ℂ)) *
        cexp (-2 *
          csqrt (((R * R : ℝ) : ℂ) * s * (1 + (kon : ℂ) / (s + (koff : ℂ))) / (Df : ℂ))) +
      2 * s * s * cexp (-2 *
        csqrt (((R * R : ℝ) : ℂ) * s * (1 + (kon : ℂ) / (s + (koff : ℂ))) / (Df : ℂ))) +
      4 * s * (koff : ℂ) * cexp (-2 *
        csqrt (((R * R : ℝ) : ℂ) * s * (1 + (kon : ℂ) / (s + (koff : ℂ))) / (Df : ℂ))) +
      ((koff * koff : ℝ) : ℂ) * cexp (-2 *
        csqrt (((R * R : ℝ) : ℂ) * s * (1 + (kon : ℂ) / (s + (koff : ℂ))) / (Df : ℂ))) +
      2 * s * (kon : ℂ) * cexp (-2 *
        csqrt (((R * R : ℝ) : ℂ) * s * (1 + (kon : ℂ) / (s + (koff : ℂ))) / (Df : ℂ))) +
      ((2 * kon * koff : ℝ) : ℂ) *
        csqrt (((R * R : ℝ) : ℂ) * s * (1 + (kon : ℂ) / (s + (koff : ℂ))) / (Df : ℂ)) *
        cexp (-2 *
          csqrt (((R * R : ℝ) : ℂ) * s * (1 + (kon : ℂ) / (s + (koff : ℂ))) / (Df : ℂ))) -
      2 * s * (kon : ℂ)) /
    4 / s / (s + (koff : ℂ)) / (s + (koff : ℂ)) / ((kon + koff : ℝ) : ℂ) /
    ((kon + koff : ℝ) : ℂ) /
    csqrt (((R * R : ℝ) : ℂ) * s * (1 + (kon : ℂ) / (s + (koff : ℂ))) / (Df : ℂ))

/-- Source function `effectiveDiffusion` (`x = kon/koff`). -/
noncomputable def effectiveDiffusion (s : ℂ) (x Df R : ℝ) : ℂ :=
  1 / s - ((1 / 2 : ℝ) : ℂ) / s /
      csqrt (((R * R : ℝ) : ℂ) * s * ((1 + x : ℝ) : ℂ) / (Df : ℂ)) *
    (1 - cexp (-2 * csqrt (((R * R : ℝ) : ℂ) * s * ((1 + x : ℝ) : ℂ) / (Df : ℂ))))

/-- Source function `effectiveDiffusion_x` (`x = kon/koff`). -/
noncomputable def effectiveDiffusion_x (s : ℂ) (x Df R : ℝ) : ℂ :=
  (1 - (1 + 2 * csqrt (s * (R : ℂ) * (R : ℂ) / (Df : ℂ) * ((1 + x : ℝ) : ℂ))) *
      cexp (-2 * csqrt (s * (R : ℂ) * (R : ℂ) / (Df : ℂ) * ((1 + x : ℝ) : ℂ)))) /
    (4 * s * ((1 + x : ℝ) : ℂ) *
      csqrt (s * (R : ℂ) * (R : ℂ) / (Df : ℂ) * ((1 + x : ℝ) : ℂ)))

/-- Source function `reactionDominantPure`. -/
noncomputable def reactionDominantPure (s : ℂ) (kon koff Df R : ℝ) : ℂ :=
  ((koff / (kon + koff) : ℝ) : ℂ) *
      (1 / s - ((1 / 2 : ℝ) : ℂ) / s / csqrt (((R * R : ℝ) : ℂ) * s / (Df : ℂ)) *
        (1 - cexp (-2 * csqrt (((R * R : ℝ) : ℂ) * s / (Df : ℂ))))) +
    ((kon / (kon + koff) : ℝ) : ℂ) / (s + (koff : ℂ))

/-- Source function `reactionDominantPure_kon`. -/
noncomputable def reactionDominantPure_kon (s : ℂ) (kon koff Df R : ℝ) : ℂ :=
  (((1 - kon / (kon + koff)) / (kon + koff) : ℝ) : ℂ) / (s + (koff : ℂ)) -
    (koff : ℂ) *
        (1 / s - ((1 / 2 : ℝ) : ℂ) / s / csqrt (((R * R : ℝ) : ℂ) * s / (Df : ℂ)) *
          (1 - cexp (-2 * csqrt (((R * R : ℝ) : ℂ) * s / (Df : ℂ))))) /
      cpow ((kon + koff : ℝ) : ℂ) 2

/-- Source function `reactionDominantPure_koff`. -/
noncomputable def reactionDominantPure_koff (s : ℂ) (kon koff Df R : ℝ) : ℂ :=
  ((-kon / (kon + koff) : ℝ) : ℂ) / (s + (koff : ℂ)) *
      (((1 / (kon + koff) : ℝ) : ℂ) + 1 / (s + (koff : ℂ))) +
    (1 / s - ((1 / 2 : ℝ) : ℂ) / s / csqrt (((R * R : ℝ) : ℂ) * s / (Df : ℂ)) *
        (1 - cexp (-2 * csqrt (((R * R : ℝ) : ℂ) * s / (Df : ℂ))))) /
      ((kon + koff : ℝ) : ℂ) * ((1 - koff / (kon + koff) : ℝ) : ℂ)

/-- Source function `hybridModel`. -/
noncomputable def hybridModel (s : ℂ) (kon koff Df R : ℝ) : ℂ :=
  ((koff : ℂ) / (s + (koff : ℂ))) *
      (1 / s - ((1 / 2 : ℝ) : ℂ) / s /
          csqrt (((R * R * kon : ℝ) : ℂ) * s / (Df : ℂ) / (s + (koff : ℂ))) *
        (1 - cexp (-2 *
          csqrt (((R * R * kon : ℝ) : ℂ) * s / (Df : ℂ) / (s + (koff : ℂ)))))) +
    1 / (s + (koff : ℂ))

/-- Source function `hybridModel_kon`. -/
noncomputable def hybridModel_kon (s : ℂ) (kon koff Df R : ℝ) : ℂ :=
  (koff : ℂ) / s / (s + (koff : ℂ)) *
    (s * (R : ℂ) * (R : ℂ) / (Df : ℂ) *
          (1 - cexp (-2 *
            csqrt (((R * R : ℝ) : ℂ) * s / (Df : ℂ) * (kon : ℂ) / (s + (koff : ℂ))))) /
          4 / (s + (koff : ℂ)) /
        cpow (((R * R : ℝ) : ℂ) * s / (Df : ℂ) * (kon : ℂ) / (s + (koff : ℂ)))
          (((3 / 2 : ℝ) : ℂ)) -
      cexp (-2 * csqrt (((R * R : ℝ) : ℂ) * s / (Df : ℂ) * (kon : ℂ) / (s + (koff : ℂ)))) /
        2 / (kon : ℂ))

/-- Source function `hybridModel_koff`. -/
noncomputable def hybridModel_koff (s : ℂ) (kon koff Df R : ℝ) : ℂ :=
  -cexp (-2 * csqrt (((R * R : ℝ) : ℂ) * s / (Df : ℂ) * (kon : ℂ) / (s + (koff : ℂ)))) /
      (4 * s * cpow (s + (koff : ℂ)) 3 *
        cpow (((R * R : ℝ) : ℂ) * s / (Df : ℂ) * (kon : ℂ) / (s + (koff : ℂ)))
          (((3 / 2 : ℝ) : ℂ))) *
    (((R * R : ℝ) : ℂ) * s / (Df : ℂ) * (kon : ℂ) * ((koff : ℂ) + 2 * s) *
        cexp (2 * csqrt (((R * R : ℝ) : ℂ) * s / (Df : ℂ) * (kon : ℂ) / (s + (koff : ℂ)))) -
      ((2 * koff : ℝ) : ℂ) * (s + (koff : ℂ)) *
        cpow (((R * R : ℝ) : ℂ) * s / (Df : ℂ) * (kon : ℂ) / (s + (koff : ℂ)))
          (((3 / 2 : ℝ) : ℂ)) -
      ((R * R : ℝ) : ℂ) * s / (Df : ℂ) * (kon : ℂ) * (koff : ℂ) -
      ((2 * kon * R * R : ℝ) : ℂ) * cpow s 2 / (Df : ℂ))


/-! ## Numerical inversion of a Laplace image (`invlap`, lines 168-245) -/

/-- Type of the eleven Laplace images once called through the unprototyped pointer
`double complex (*laplace_fun)()` with the five arguments `(s, kon, koff, Df, R)`. -/
abbrev LaplaceImage : Type := ℂ → ℝ → ℝ → ℝ → ℝ → ℂ

/-- The selection of `laplace_fun` in `invlap` (the `strcmp` cascade, lines 177-230).
`none` stands for the pointer being left unassigned: the `else` branches only print to
`stderr`, and a name that matches none of the four comparisons reaches no assignment.
The four-parameter functions `effectiveDiffusion` and `effectiveDiffusion_x` receive the
call's arguments by position (`x := kon`, `Df := koff`, `R := Df`). -/
noncomputable def laplace_fun (m : String) (functionOrDerivative : Int) :
    Option LaplaceImage :=
  if m = "fullModel" then
    if functionOrDerivative = 0 then some fullModel
    else if functionOrDerivative = 1 then some fullModel_kon
    else if functionOrDerivative = 2 then some fullModel_koff
    else none
  else if m = "effectiveDiffusion" then
    if functionOrDerivative = 0 then
      some (fun s kon koff Df _ => effectiveDiffusion s kon koff Df)
    else if functionOrDerivative = 1 then
      some (fun s kon koff Df _ => effectiveDiffusion_x s kon koff Df)
    else none
  else if m = "hybridModel" then
    if functionOrDerivative = 0 then some hybridModel
    else if functionOrDerivative = 1 then some hybridModel_kon
    else if functionOrDerivative = 2 then some hybridModel_koff
    else none
  else if m = "reactionDominantPure" then
    if functionOrDerivative = 0 then some reactionDominantPure
    else if functionOrDerivative = 1 then some reactionDominantPure_kon
    else if functionOrDerivative = 2 then some reactionDominantPure_koff
    else none
  else none

/-- One pass of the body of the quadrature loop of `invlap` (lines 233-241) on the pair
`(sum, wi)` of the two variables the loop carries. -/
noncomputable def invlap_body (F : LaplaceImage) (t kon koff Df R sigma delta : ℝ)
    (st : ℝ × ℝ) : ℝ × ℝ :=
  let sum := st.1
  let wi := st.2
  let witi : ℂ := 0 + ((wi * t : ℝ) : ℂ) * Complex.I
  let wf := wi + delta
  let wfti : ℂ := 0 + ((wf * t : ℝ) : ℂ) * Complex.I
  let fi := (cexp witi * F ((sigma : ℂ) + (wi : ℂ) * Complex.I) kon koff Df R).re
  let ff := (cexp wfti * F ((sigma : ℂ) + (wf : ℂ) * Complex.I) kon koff Df R).re
  (sum + 0.5 * (wf - wi) * (fi + ff), wf)

/-- The part of `invlap` after the selection: the loop `for(i = 0; i < n_int; i++)` run
from `sum = 0.0`, `wi = 0.0`, and the final `creal(sum*cexp(sigma*t)/M_PI)`, for the
selected image `F`. -/
noncomputable def invlap_quadrature (F : LaplaceImage) (t kon koff Df R : ℝ) : ℝ :=
  let n_int : ℕ := 10000
  let omega : ℝ := 200.0
  let sigma : ℝ := 0.05
  let delta : ℝ := omega / (n_int : ℝ)
  let sum : ℝ := ((invlap_body F t kon koff Df R sigma delta)^[n_int] (0.0, 0.0)).1
  ((sum : ℂ) * cexp (((sigma * t : ℝ) : ℂ)) / ((Real.pi : ℝ) : ℂ)).re

/-- Source function `invlap`.  The result is `none` when the call goes through the
unassigned pointer (no defined value). -/
noncomputable def invlap (t kon koff Df R : ℝ) (m : String) (functionOrDerivative : Int) :
    Option ℝ :=
  match laplace_fun m functionOrDerivative with
  | some F => some (invlap_quadrature F t kon koff Df R)
  | none => none

/-! ## The least-squares callbacks (`model_f`, `model_df`, lines 247-310) -/

/-- The C `struct data`; the three arrays are modelled by their index maps. -/
structure data where
  n : ℕ
  Df : ℝ
  R : ℝ
  time : ℕ → ℝ
  y : ℕ → ℝ
  sigma : ℕ → ℝ
  m : String

/-- GSL status code `GSL_SUCCESS`. -/
def GSL_SUCCESS : Int := 0

/-- GSL `gsl_vector_get` on a vector given by its index map. -/
def gsl_vector_get (v : ℕ → ℝ) (i : ℕ) : ℝ := v i

/-- GSL `gsl_vector_set` on a vector given by its index map. -/
def gsl_vector_set (v : ℕ → ℝ) (i : ℕ) (x : ℝ) : ℕ → ℝ := Function.update v i x

/-- GSL `gsl_matrix_set` on a matrix given by its index map. -/
def gsl_matrix_set (J : ℕ → ℕ → ℝ) (i j : ℕ) (x : ℝ) : ℕ → ℕ → ℝ :=
  Function.update J i (Function.update (J i) j x)

/-- The loop `for (i = 0; i < n; i++)` of `model_f`: the vector `f` after the passes
`i = 0, ..., k - 1`. -/
noncomputable def model_f_loop (d : data) (kon koff : ℝ) (f : ℕ → ℝ) : ℕ → Option (ℕ → ℝ)
  | 0 => some f
  | k + 1 =>
    match model_f_loop d kon koff f k with
    | none => none
    | some f' =>
      match invlap (d.time k) kon koff d.Df d.R d.m 0 with
      | none => none
      | some Yi => some (gsl_vector_set f' k ((Yi - d.y k) / d.sigma k))

/-- Source function `model_f`: the returned status and the vector `f` it leaves. -/
noncomputable def model_f (x : ℕ → ℝ) (d : data) (f : ℕ → ℝ) : Option (Int × (ℕ → ℝ)) :=
  let kon := gsl_vector_get x 0
  let koff := gsl_vector_get x 1
  match model_f_loop d kon koff f d.n with
  | none => none
  | some f' => some (GSL_SUCCESS, f')

/-- The loop `for (i = 0; i < n; i++)` of `model_df`: the matrix `J` after the passes
`i = 0, ..., k - 1`. -/
noncomputable def model_df_loop (d : data) (kon koff : ℝ) (J : ℕ → ℕ → ℝ) :
    ℕ → Option (ℕ → ℕ → ℝ)
  | 0 => some J
  | k + 1 =>
    match model_df_loop d kon koff J k with
    | none => none
    | some J' =>
      match invlap (d.time k) kon koff d.Df d.R d.m 1 with
      | none => none
      | some Y1 =>
        match invlap (d.time k) kon koff d.Df d.R d.m 2 with
        | none => none
        | some Y2 =>
          some (gsl_matrix_set (gsl_matrix_set J' k 0 (Y1 / d.sigma k)) k 1
            (Y2 / d.sigma k))

/-- Source function `model_df`: the returned status and the matrix `J` it leaves. -/
noncomputable def model_df (x : ℕ → ℝ) (d : data) (J : ℕ → ℕ → ℝ) :
    Option (Int × (ℕ → ℕ → ℝ)) :=
  let kon := gsl_vector_get x 0
  let koff := gsl_vector_get x 1
  match model_df_loop d kon koff J d.n with
  | none => none
  | some J' => some (GSL_SUCCESS, J')

/-- The parameter vector `x` with `x[0] = kon`, `x[1] = koff` (main views the array
`x_init[2]` as a `gsl_vector`). -/
def x_init (kon koff : ℝ) : ℕ → ℝ := fun j => if j = 0 then kon else koff

/-! ## The inversion formula as the specification words it -/

/-- The value the specification describes for the inverse transform: each
transfer-function value is multiplied by `exp(s*t)` with the full complex
`s = sigma + k*delta*j`, the real parts are combined by the trapezoidal rule, and the
result is `real(sum * exp(sigma*t) / pi)`. -/
noncomputable def invlap_as_specified (F : LaplaceImage) (t kon koff Df R : ℝ) : ℝ :=
  let n_int : ℕ := 10000
  let omega : ℝ := 200
  let sigma : ℝ := 0.05
  let delta : ℝ := omega / (n_int : ℝ)
  let f : ℕ → ℝ := fun k =>
    (Complex.exp (((sigma : ℂ) + ((k * delta : ℝ) : ℂ) * Complex.I) * (t : ℂ)) *
      F ((sigma : ℂ) + ((k * delta : ℝ) : ℂ) * Complex.I) kon koff Df R).re
  let sum : ℝ := ∑ i in Finset.range n_int, 0.5 * delta * (f i + f (i + 1))
  ((sum : ℂ) * Complex.exp (((sigma * t : ℝ) : ℂ)) / ((Real.pi : ℝ) : ℂ)).re


/-! ## Auxiliary definitions for the statements -/

/-- The integrand sample of `invlap` at the node `k`: `creal(cexp(j*w*t) * F(sigma + j*w))`
with `w = k*delta`. -/
noncomputable def invlap_sample (F : LaplaceImage) (t kon koff Df R sigma delta : ℝ)
    (k : ℕ) : ℝ :=
  (cexp (0 + ((k * delta * t : ℝ) : ℂ) * Complex.I) *
    F ((sigma : ℂ) + ((k * delta : ℝ) : ℂ) * Complex.I) kon koff Df R).re

/-- A small data context used to instantiate the statements: three samples at times
`0, 1, 2`, observations and standard deviations all `1`, the default `Df`, `R` and the
default regime `fullModel`. -/
noncomputable def sample_data : data :=
  { n := 3, Df := 11, R := 3, time := fun i => i, y := fun _ => 1, sigma := fun _ => 1,
    m := "fullModel" }

/-! ## What `invlap` prints while selecting the transfer function -/

/-- The lines `invlap` writes to `stderr` during the selection of `laplace_fun`
(lines 177-230): the `else` branch of a recognised regime name prints an error; a name
that matches none of the four comparisons reaches no branch and prints nothing.  None
of the branches returns or exits: control always continues to the loop of line 232. -/
def invlap_stderr (m : String) (functionOrDerivative : Int) : List String :=
  if m = "fullModel" then
    if functionOrDerivative = 0 then []
    else if functionOrDerivative = 1 then []
    else if functionOrDerivative = 2 then []
    else ["ERROR: invlap takes only values 0, 1 or 2 for the model and derivatives, respectively."]
  else if m = "effectiveDiffusion" then
    if functionOrDerivative = 0 then []
    else if functionOrDerivative = 1 then []
    else ["ERROR: effectiveDiffusion model has only one fit parameter x."]
  else if m = "hybridModel" then
    if functionOrDerivative = 0 then []
    else if functionOrDerivative = 1 then []
    else if functionOrDerivative = 2 then []
    else ["ERROR: invlap takes only values 0, 1 or 2 for the model and derivatives, respectively."]
  else if m = "reactionDominantPure" then
    if functionOrDerivative = 0 then []
    else if functionOrDerivative = 1 then []
    else if functionOrDerivative = 2 then []
    else ["ERROR: invlap takes only values 0, 1 or 2 for the model and derivatives, respectively."]
  else []

/-! ## Divisors and root arguments of the nine supported transfer functions -/

/-- Names of the nine transfer functions the three supported regimes use. -/
inductive image_name where
  | fullModel
  | fullModel_kon
  | fullModel_koff
  | reactionDominantPure
  | reactionDominantPure_kon
  | reactionDominantPure_koff
  | hybridModel
  | hybridModel_kon
  | hybridModel_koff

/-- Every expression that stands to the right of a `/` in the return statement of the
named source function (a real divisor is listed by its conversion to a complex number,
and a sub-expression that occurs as a divisor several times is listed once). -/
noncomputable def image_name.divisors (s : ℂ) (kon koff Df R : ℝ) : image_name → List ℂ
  | .fullModel =>
    [((1 + kon / koff : ℝ) : ℂ), (koff : ℂ), s + (koff : ℂ), s, ((2 : ℝ) : ℂ),
      csqrt (((R * R : ℝ) : ℂ) * s * (1 + (kon : ℂ) / (s + (koff : ℂ))) / (Df : ℂ)),
      (Df : ℂ)]
  | .fullModel_kon =>
    [4, s, s + (koff : ℂ), ((kon + koff : ℝ) : ℂ),
      csqrt (((R * R : ℝ) : ℂ) * s * (1 + (kon : ℂ) / (s + (koff : ℂ))) / (Df : ℂ)),
      (Df : ℂ)]
  | .fullModel_koff =>
    [4, s, s + (koff : ℂ), ((kon + koff : ℝ) : ℂ),
      csqrt (((R * R : ℝ) : ℂ) * s * (1 + (kon : ℂ) / (s + (koff : ℂ))) / (Df : ℂ)),
      (Df : ℂ)]
  | .reactionDominantPure =>
    [((kon + koff : ℝ) : ℂ), s, ((2 : ℝ) : ℂ),
      csqrt (((R * R : ℝ) : ℂ) * s / (Df : ℂ)), (Df : ℂ), s + (koff : ℂ)]
  | .reactionDominantPure_kon =>
    [((kon + koff : ℝ) : ℂ), s + (koff : ℂ), s, ((2 : ℝ) : ℂ),
      csqrt (((R * R : ℝ) : ℂ) * s / (Df : ℂ)), (Df : ℂ),
      cpow ((kon + koff : ℝ) : ℂ) 2]
  | .reactionDominantPure_koff =>
    [((kon + koff : ℝ) : ℂ), s + (koff : ℂ), s, ((2 : ℝ) : ℂ),
      csqrt (((R * R : ℝ) : ℂ) * s / (Df : ℂ)), (Df : ℂ)]
  | .hybridModel =>
    [s + (koff : ℂ), s, ((2 : ℝ) : ℂ),
      csqrt (((R * R * kon : ℝ) : ℂ) * s / (Df : ℂ) / (s + (koff : ℂ))), (Df : ℂ)]
  | .hybridModel_kon =>
    [s, s + (koff : ℂ), (Df : ℂ), 4,
      cpow (((R * R : ℝ) : ℂ) * s / (Df : ℂ) * (kon : ℂ) / (s + (koff : ℂ)))
        (((3 / 2 : ℝ) : ℂ)), ((2 : ℝ) : ℂ), (kon : ℂ)]
  | .hybridModel_koff =>
    [4 * s * cpow (s + (koff : ℂ)) 3 *
        cpow (((R * R : ℝ) : ℂ) * s / (Df : ℂ) * (kon : ℂ) / (s + (koff : ℂ)))
          (((3 / 2 : ℝ) : ℂ)),
      (Df : ℂ), s + (koff : ℂ), ((2 : ℝ) : ℂ)]

/-- Every argument passed to `csqrt`, or to `cpow` with the exponent `3.0/2.0`, in the
return statement of the named source function. -/
noncomputable def image_name.root_arguments (s : ℂ) (kon koff Df R : ℝ) :
    image_name → List ℂ
  | .fullModel =>
    [((R * R : ℝ) : ℂ) * s * (1 + (kon : ℂ) / (s + (koff : ℂ))) / (Df : ℂ)]
  | .fullModel_kon =>
    [((R * R : ℝ) : ℂ) * s * (1 + (kon : ℂ) / (s + (koff : ℂ))) / (Df : ℂ)]
  | .fullModel_koff =>
    [((R * R : ℝ) : ℂ) * s * (1 + (kon : ℂ) / (s + (koff : ℂ))) / (Df : ℂ)]
  | .reactionDominantPure => [((R * R : ℝ) : ℂ) * s / (Df : ℂ)]
  | .reactionDominantPure_kon => [((R * R : ℝ) : ℂ) * s / (Df : ℂ)]
  | .reactionDominantPure_koff => [((R * R : ℝ) : ℂ) * s / (Df : ℂ)]
  | .hybridModel => [((R * R * kon : ℝ) : ℂ) * s / (Df : ℂ) / (s + (koff : ℂ))]
  | .hybridModel_kon =>
    [((R * R : ℝ) : ℂ) * s / (Df : ℂ) * (kon : ℂ) / (s + (koff : ℂ))]
  | .hybridModel_koff =>
    [((R * R : ℝ) : ℂ) * s / (Df : ℂ) * (kon : ℂ) / (s + (koff : ℂ))]

/-! ## The fitting loop of `main` (lines 586-599) -/

/-- GSL status code `GSL_CONTINUE` (value of `gsl_errno.h`). -/
def GSL_CONTINUE : Int := -2

/-- The two GSL calls made inside the fitting loop, tagged with the value of `iter` at
the call. -/
inductive fit_call where
  | iterate (iter : ℕ)
  | test_delta (iter : ℕ)
  deriving DecidableEq

/-- The variables `iter` and `status` when the loop is left, and the calls made so far
in the order they were made. -/
structure fit_state where
  iter : ℕ
  status : Int
  calls : List fit_call

/-- The loop `do { iter++; status = gsl_multifit_fdfsolver_iterate (s); if (status) break;
status = gsl_multifit_test_delta (...); } while (status == GSL_CONTINUE && iter < 500);`
started with the counter at `iter`.  The two GSL functions are oracles: `iterate k` and
`test_delta k` are the statuses they return when called with the counter at `k`. -/
def fit_loop (iterate test_delta : ℕ → Int) (iter : ℕ) (calls : List fit_call) : fit_state :=
  if iterate (iter + 1) ≠ 0 then
    { iter := iter + 1, status := iterate (iter + 1),
      calls := calls ++ [fit_call.iterate (iter + 1)] }
  else if test_delta (iter + 1) = GSL_CONTINUE ∧ iter + 1 < 500 then
    fit_loop iterate test_delta (iter + 1)
      (calls ++ [fit_call.iterate (iter + 1)] ++ [fit_call.test_delta (iter + 1)])
  else
    { iter := iter + 1, status := test_delta (iter + 1),
      calls := calls ++ [fit_call.iterate (iter + 1)] ++ [fit_call.test_delta (iter + 1)] }
termination_by 500 - iter
decreasing_by omega

/-- The fitting loop as `main` runs it: `iter` starts at `0` (line 367). -/
def main_fit (iterate test_delta : ℕ → Int) : fit_state :=
  fit_loop iterate test_delta 0 []

/-! ## The reported bound fraction and its error (line 614) -/

/-- The value printed as `bound`: `100.0 - 100.0/(1.0 + FIT(0)/FIT(1))`. -/
noncomputable def bound (FIT0 FIT1 : ℝ) : ℝ :=
  100.0 - 100.0 / (1.0 + FIT0 / FIT1)

/-- The second value printed on the `bound` line (its error):
`100.0*(c*ERR(0)/FIT(1) - FIT(0)*c*ERR(1)/FIT(1)/FIT(1))/(1.0 + FIT(0)/FIT(1))/(1.0 + FIT(0)/FIT(1))`. -/
noncomputable def bound_error (FIT0 FIT1 c ERR0 ERR1 : ℝ) : ℝ :=
  100.0 * (c * ERR0 / FIT1 - FIT0 * c * ERR1 / FIT1 / FIT1) / (1.0 + FIT0 / FIT1) /
    (1.0 + FIT0 / FIT1)

/-! ## The sample times built by `main` (lines 545-575) -/

/-- The loop `for(i = 0; i < NELEMS_1D(y); i++) time[i] = t_ini + (double) i*stepSize;`:
the array `time` after the passes `i = 0, ..., k - 1`. -/
noncomputable def fill_time (t_ini stepSize : ℝ) (time : ℕ → ℝ) : ℕ → ℕ → ℝ
  | 0 => time
  | k + 1 => Function.update (fill_time t_ini stepSize time k) k (t_ini + (k : ℝ) * stepSize)

/-- The array `time` as `main` leaves it at line 575, from its contents `time` at
declaration: `stepSize = (t_end - t_ini)/(double) (n - 1)`, the filling loop over the `n`
elements, and `if(time[0] == 0.0) time[0] = 0.01;`. -/
noncomputable def main_time (n : Int) (t_ini t_end : ℝ) (time : ℕ → ℝ) : ℕ → ℝ :=
  let stepSize : ℝ := (t_end - t_ini) / ((n - 1 : Int) : ℝ)
  let time := fill_time t_ini stepSize time n.toNat
  if time 0 = 0.0 then Function.update time 0 0.01 else time

/-! ## The command line of `main` (lines 331-356 and 369-542) -/

/-- The text `bad_input` prints before `exit(1)`. -/
def usage : String :=
  "Usage: cFDAP [-d diffusion_constant] [-r2 half_activation_area]\n" ++
  "             [-m model_type] [-tini initial_time]\n" ++
  "             [-tend end_time] [-n numsteps]\n" ++
  "             [-kon0 initial_kon] [-koff0 initial_koff]\n" ++
  "             [-i input] [-sd standard_deviation]\n" ++
  "             [-o output]\n\n" ++
  "  diffusion_constant:     diffusion constant of unbound proteins (default: 11.0 µm2/s)\n" ++
  "  half_activation_area:   half length of the activation area (default: 3.0 µm)\n" ++
  "  model_type:             reaction-diffusion model to fit with:\n" ++
  "                          fullModel (default), hybridModel,\n" ++
  "                          reactionDominantPure, effectiveDiffusion\n" ++
  "  initial_time:           initial time in the curve duration range (default: 0.0 s)\n" ++
  "  end_time:               end time in the curve duration range (default: 112.0 s)\n" ++
  "  numsteps:               number of steps in the FDAP curve (default: 113)\n" ++
  "  kon0:                   starting value for kon (default: 0.5)\n" ++
  "  koff0:                  starting value for koff (default: 0.5)\n" ++
  "  input:                  name of input curve file (mandatory)\n" ++
  "  standard_error:         name of input SD file (mandatory)\n" ++
  "  output:                 prefix name of output file (Example: -o tau441wt\n" ++
  "                          makes cFDAP output \x27tau441wt_fit_parameters.dat\x27\n" ++
  "                          and \x27tau441wt_fit_curve.dat\x27)\n" ++
  "\n\n"

/-- A value of C type `double` as `atof` can return it: not a number, or a number, finite
or infinite.  Finite values are taken as real numbers, as everywhere in this file. -/
inductive double where
  | nan
  | num (x : EReal)

/-- The `double` of a real constant of the source. -/
noncomputable def double.ofReal (x : ℝ) : double := double.num (x : EReal)

/-- C `a <= b` on `double`: false as soon as an operand is not a number. -/
noncomputable def double.le (a b : double) : Bool :=
  match a, b with
  | double.num x, double.num y => decide (x ≤ y)
  | _, _ => false

/-- C `a < b` on `double`: false as soon as an operand is not a number. -/
noncomputable def double.lt (a b : double) : Bool :=
  match a, b with
  | double.num x, double.num y => decide (x < y)
  | _, _ => false

/-- How the command-line part of `main` can end before the fit: `exit text status` is
the text written to `stderr` followed by `exit(status)`; `undefined` is a `strcpy` that
writes past the end of its destination array, after which C defines no behaviour. -/
inductive stop where
  | exit (text : String) (status : Int)
  | undefined
  deriving DecidableEq

/-- C `strcpy(dest, src)` for a destination array of `size` bytes: the value `dest` holds
afterwards, defined only if the bytes of `src` and the terminating zero fit. -/
def strcpy (size : ℕ) (src : String) : Except stop String :=
  if src.utf8ByteSize + 1 ≤ size then Except.ok src else Except.error stop.undefined

/-- The variables `main` sets from its defaults and its command line; the `double`
variables hold whatever `atof` returned. -/
structure config where
  m : String
  curve_name : String
  std_name : String
  output_prefix : String
  n : Int
  Df : double
  R : double
  t_ini : double
  t_end : double
  kon_init : double
  koff_init : double

/-- The defaults of lines 369-377 (`DEFAULT_DF`, ..., `DEFAULT_KOFF_INIT`). -/
noncomputable def default_config : config :=
  { m := "fullModel", curve_name := "", std_name := "", output_prefix := "",
    n := 113, Df := double.ofReal 11.0, R := double.ofReal 3.0,
    t_ini := double.ofReal 0.0, t_end := double.ofReal 112.0,
    kon_init := double.ofReal 0.5, koff_init := double.ofReal 0.5 }

/-- The choice of the model (lines 388-418).  The array `m` is declared as
`char m[] = "fullModel"` (line 370) and so has 10 bytes; `strcpy(m, argv[2])` (line 406)
is the copy into these 10 bytes. -/
def select_model (argv : List String) : Except stop String :=
  if argv.length < 2 ∨ argv.length > 22 then
    Except.error (stop.exit usage 1)
  else if argv.getD 1 "" ≠ "-m" then
    Except.error (stop.exit "ERROR: Firstly, a model must be chosen.\n\n" 1)
  else if argv.length = 2 then
    Except.error (stop.exit "ERROR: Specify the model\x27s name.\n\n" 1)
  else if argv.getD 2 "" = "fullModel" ∨ argv.getD 2 "" = "hybridModel" ∨
      argv.getD 2 "" = "reactionDominantPure" then
    strcpy 10 (argv.getD 2 "")
  else if argv.getD 2 "" = "effectiveDiffusion" then
    Except.error
      (stop.exit ("ERROR: \x27" ++ argv.getD 2 "" ++ "\x27 model is not supported so far.\n\n") 1)
  else
    Except.error (stop.exit ("ERROR: Unknown model \x27" ++ argv.getD 2 "" ++ "\x27\n\n") 1)

/-- The body of the loop over the optional parameters (lines 422-535) at index `i`;
`atof` and `atoi` are the C library conversions.  The result is the new configuration
and how often the body itself incremented `i` (an option takes `argv[i + 1]` as its value
and steps over it).  The arrays `curve_name`, `std_name` and `output_prefix` have 80
bytes (line 371); `strncmp(argv[i], "-", 1) == 0` says that the first character of
`argv[i]` is `-`. -/
noncomputable def option_body (atof : String → double) (atoi : String → Int)
    (argv : List String) (i : ℕ) (c : config) : Except stop (config × ℕ) :=
  if argv.getD i "" = "-d" then
    if i = argv.length - 1 then
      Except.error (stop.exit "ERROR: Missing diffusion coefficient.\n\n" 1)
    else if double.le (atof (argv.getD (i + 1) "")) (double.ofReal 0.0) then
      Except.error
        (stop.exit "ERROR: Would a zero or negative diffusion constant make sense?\n\n" 1)
    else Except.ok ({ c with Df := atof (argv.getD (i + 1) "") }, 1)
  else if argv.getD i "" = "-r2" then
    if i = argv.length - 1 then
      Except.error (stop.exit "ERROR: Missing half area size.\n\n" 1)
    else if double.le (atof (argv.getD (i + 1) "")) (double.ofReal 0.0) then
      Except.error (stop.exit "ERROR: Would a zero or negative half area size make sense?\n\n" 1)
    else Except.ok ({ c with R := atof (argv.getD (i + 1) "") }, 1)
  else if argv.getD i "" = "-kon0" then
    if i = argv.length - 1 then
      Except.error (stop.exit "ERROR: Missing initial value for kon0.\n\n" 1)
    else if double.lt (atof (argv.getD (i + 1) "")) (double.ofReal 0.0) then
      Except.error (stop.exit "ERROR: Would a negative kon make sense?\n\n" 1)
    else Except.ok ({ c with kon_init := atof (argv.getD (i + 1) "") }, 1)
  else if argv.getD i "" = "-koff0" then
    if i = argv.length - 1 then
      Except.error (stop.exit "ERROR: Missing initial value for koff0.\n\n" 1)
    else if double.lt (atof (argv.getD (i + 1) "")) (double.ofReal 0.0) then
      Except.error (stop.exit "ERROR: Would a negative koff make sense?\n\n" 1)
    else Except.ok ({ c with koff_init := atof (argv.getD (i + 1) "") }, 1)
  else if argv.getD i "" = "-tini" then
    if i = argv.length - 1 then
      Except.error (stop.exit "ERROR: Missing initial time.\n\n" 1)
    else if double.lt (atof (argv.getD (i + 1) "")) (double.ofReal 0.0) then
      Except.error (stop.exit "ERROR: Would a negative initial time make sense?\n\n" 1)
    else Except.ok ({ c with t_ini := atof (argv.getD (i + 1) "") }, 1)
  else if argv.getD i "" = "-tend" then
    if i = argv.length - 1 then
      Except.error (stop.exit "ERROR: Missing end time.\n\n" 1)
    else if double.lt (atof (argv.getD (i + 1) "")) c.t_ini then
      Except.error (stop.exit "ERROR: Would t_end < t_ini make sense?\n\n" 1)
    else Except.ok ({ c with t_end := atof (argv.getD (i + 1) "") }, 1)
  else if argv.getD i "" = "-n" then
    if i = argv.length - 1 then
      Except.error (stop.exit "ERROR: Missing number of time points.\n\n" 1)
    else if atoi (argv.getD (i + 1) "") < 3 then
      Except.error
        (stop.exit "ERROR: Your curve contatins less than 3 points? Are you kidding?\n\n" 1)
    else Except.ok ({ c with n := atoi (argv.getD (i + 1) "") }, 1)
  else if argv.getD i "" = "-i" then
    if i = argv.length - 1 then
      Except.error (stop.exit "ERROR: No input curve files given.\n\n" 1)
    else (strcpy 80 (argv.getD (i + 1) "")).map fun v => ({ c with curve_name := v }, 1)
  else if argv.getD i "" = "-sd" then
    if i = argv.length - 1 then
      Except.error (stop.exit "ERROR: No input SD files given.\n\n" 1)
    else (strcpy 80 (argv.getD (i + 1) "")).map fun v => ({ c with std_name := v }, 1)
  else if argv.getD i "" = "-o" then
    if i = argv.length - 1 then
      Except.error (stop.exit "ERROR: No output prefix name given.\n\n" 1)
    else (strcpy 80 (argv.getD (i + 1) "")).map fun v => ({ c with output_prefix := v }, 1)
  else if (argv.getD i "").data.head? = some '-' then
    Except.error (stop.exit ("\nERROR: Illegal option " ++ argv.getD i "" ++ "\n\n" ++ usage) 1)
  else Except.ok (c, 0)


/-- The loop `for(i = 2; i < argc; i++)` over the optional parameters (lines 421-536),
entered at index `i` with configuration `c`. -/
noncomputable def parse_options (atof : String → double) (atoi : String → Int)
    (argv : List String) (i : ℕ) (c : config) : Except stop config :=
  if i < argv.length then
    match option_body atof atoi argv i c with
    | Except.error e => Except.error e
    | Except.ok (c', k) => parse_options atof atoi argv (i + k + 1) c'
  else Except.ok c
termination_by argv.length - i
decreasing_by omega

/-- The command-line part of `main` (lines 388-542): the choice of the model, the loop
over `argv[2], argv[3], ...`, and the check that the three file names were given. -/
noncomputable def main_arguments (atof : String → double) (atoi : String → Int)
    (argv : List String) : Except stop config :=
  match select_model argv with
  | Except.error e => Except.error e
  | Except.ok name =>
    match parse_options atof atoi argv 2 { default_config with m := name } with
    | Except.error e => Except.error e
    | Except.ok c =>
      if c.curve_name = "" ∨ c.std_name = "" ∨ c.output_prefix = "" then
        Except.error (stop.exit "ERROR: File input/output is not defined correctly\n\n" 1)
      else Except.ok c

/-- The number of calls of the solver step `gsl_multifit_fdfsolver_iterate` in a list of
calls. -/
def solver_steps : List fit_call → ℕ
  | [] => 0
  | fit_call.iterate _ :: l => solver_steps l + 1
  | fit_call.test_delta _ :: l => solver_steps l

/-- The calls of `k` complete passes of the fitting loop: `iterate 1`, `test_delta 1`,
..., `iterate k`, `test_delta k`. -/
def complete_passes : ℕ → List fit_call
  | 0 => []
  | k + 1 => complete_passes k ++ [fit_call.iterate (k + 1), fit_call.test_delta (k + 1)]

/-! ## Auxiliary facts on the complex library functions -/

theorem csqrt_ne_zero {z : ℂ} (hz : z ≠ 0) : csqrt z ≠ 0 := by
  unfold csqrt
  intro h
  rw [Complex.cpow_eq_zero_iff] at h
  exact hz h.1

theorem csqrt_sq (z : ℂ) : csqrt z ^ 2 = z := by
  unfold csqrt
  have h := Complex.cpow_nat_inv_pow z (two_ne_zero : (2 : ℕ) ≠ 0)
  have e : ((1 : ℂ) / 2) = (((2 : ℕ) : ℂ))⁻¹ := by norm_num
  rw [e]
  exact h

theorem cpow_three_halves (z : ℂ) : cpow z (((3 / 2 : ℝ) : ℂ)) = csqrt z ^ 3 := by
  unfold cpow csqrt
  have e : (((3 / 2 : ℝ) : ℂ)) = ((3 : ℕ) : ℂ) * ((1 : ℂ) / 2) := by push_cast; ring
  rw [e, Complex.cpow_nat_mul]

theorem cpow_two (z : ℂ) : cpow z 2 = z ^ 2 := by
  unfold cpow
  exact Complex.cpow_ofNat z 2

theorem cpow_three (z : ℂ) : cpow z 3 = z ^ 3 := by
  unfold cpow
  exact Complex.cpow_ofNat z 3

theorem hasDerivAt_csqrt {f : ℂ → ℂ} {f' x : ℂ} (hf : HasDerivAt f f' x)
    (h0 : f x ∈ Complex.slitPlane) :
    HasDerivAt (fun y => csqrt (f y)) (csqrt (f x) / f x / 2 * f') x := by
  have hne : f x ≠ 0 := Complex.slitPlane_ne_zero h0
  have h := hf.cpow_const (c := (1 : ℂ) / 2) h0
  unfold csqrt
  convert h using 1
  rw [Complex.cpow_sub _ _ hne, Complex.cpow_one]
  field_simp
  exact Or.inl (mul_comm _ _)

theorem hasDerivAt_cexp {f : ℂ → ℂ} {f' x : ℂ} (hf : HasDerivAt f f' x) :
    HasDerivAt (fun y => cexp (f y)) (cexp (f x) * f') x := by
  unfold cexp
  exact hf.cexp

theorem add_ofReal_ne_zero {s : ℂ} {a : ℝ} (hs : 0 < s.re) (ha : 0 ≤ a) : s + (a : ℂ) ≠ 0 := by
  intro h
  have h2 := congrArg Complex.re h
  simp at h2
  linarith

theorem ne_zero_of_re_pos {s : ℂ} (hs : 0 < s.re) : s ≠ 0 := by
  intro h
  rw [h] at hs
  simp at hs

/-- The argument of the square root in `fullModel` has positive real part. -/
theorem fullArg_re_pos {s : ℂ} {kon koff Df R : ℝ} (hs : 0 < s.re) (hkon : 0 ≤ kon)
    (hkoff : 0 ≤ koff) (hDf : 0 < Df) (hR : 0 < R) :
    0 < (((R * R : ℝ) : ℂ) * s * (1 + (kon : ℂ) / (s + (koff : ℂ))) / (Df : ℂ)).re := by
  have hsk : s + (koff : ℂ) ≠ 0 := add_ofReal_ne_zero hs hkoff
  have hn : 0 < Complex.normSq (s + (koff : ℂ)) := Complex.normSq_pos.mpr hsk
  have e : ((R * R : ℝ) : ℂ) * s * (1 + (kon : ℂ) / (s + (koff : ℂ))) / (Df : ℂ)
      = ((R * R / Df : ℝ) : ℂ) * (s * (1 + (kon : ℂ) / (s + (koff : ℂ)))) := by
    push_cast; ring
  rw [e, Complex.re_ofReal_mul]
  apply mul_pos (by positivity)
  simp only [Complex.mul_re, Complex.add_re, Complex.add_im, Complex.div_re, Complex.div_im,
    Complex.ofReal_re, Complex.ofReal_im, Complex.one_re, Complex.one_im]
  have e2 : s.re * (1 + (kon * (s.re + koff) / Complex.normSq (s + (koff : ℂ)) +
        0 * (s.im + 0) / Complex.normSq (s + (koff : ℂ)))) -
      s.im * (0 + (0 * (s.re + koff) / Complex.normSq (s + (koff : ℂ)) -
        kon * (s.im + 0) / Complex.normSq (s + (koff : ℂ))))
      = s.re + (kon * s.re * (s.re + koff) + kon * s.im ^ 2) /
          Complex.normSq (s + (koff : ℂ)) := by
    field_simp
    ring
  rw [e2]
  positivity

/-- The argument of the square root in `hybridModel` has positive real part. -/
theorem hybridArg_re_pos {s : ℂ} {kon koff Df R : ℝ} (hs : 0 < s.re) (hkon : 0 < kon)
    (hkoff : 0 ≤ koff) (hDf : 0 < Df) (hR : 0 < R) :
    0 < (((R * R : ℝ) : ℂ) * s / (Df : ℂ) * (kon : ℂ) / (s + (koff : ℂ))).re := by
  have hsk : s + (koff : ℂ) ≠ 0 := add_ofReal_ne_zero hs hkoff
  have hn : 0 < Complex.normSq (s + (koff : ℂ)) := Complex.normSq_pos.mpr hsk
  have e : ((R * R : ℝ) : ℂ) * s / (Df : ℂ) * (kon : ℂ) / (s + (koff : ℂ))
      = ((R * R / Df * kon : ℝ) : ℂ) * (s / (s + (koff : ℂ))) := by
    push_cast; ring
  rw [e, Complex.re_ofReal_mul]
  apply mul_pos (by positivity)
  simp only [Complex.add_re, Complex.add_im, Complex.div_re,
    Complex.ofReal_re, Complex.ofReal_im]
  have e2 : s.re * (s.re + koff) / Complex.normSq (s + (koff : ℂ)) +
      s.im * (s.im + 0) / Complex.normSq (s + (koff : ℂ))
      = (s.re * (s.re + koff) + s.im ^ 2) / Complex.normSq (s + (koff : ℂ)) := by
    field_simp
    ring
  rw [e2]
  positivity

theorem mem_slitPlane_of_re_pos {z : ℂ} (h : 0 < z.re) : z ∈ Complex.slitPlane :=
  Complex.mem_slitPlane_iff.mpr (Or.inl h)

/-! ## The closed-form derivatives are the derivatives of the Laplace images

Each image is differentiated as a function of a complex parameter and then restricted to
the real axis; the square roots are differentiable because their arguments have positive
real part whenever `s` has.  In the final algebraic identities the linear forms
`s + koff` and `kon + koff` are turned into variables of their own.
-/

/-- Derivative of the diffusion factor `1/s - 1/2/s/q * (1 - cexp(-2 q))` along a
differentiable `q`. -/
theorem hasDerivAt_diffusion {q : ℂ → ℂ} {q' x : ℂ} (s : ℂ) (hq : HasDerivAt q q' x)
    (hq0 : q x ≠ 0) (hs0 : s ≠ 0) :
    HasDerivAt (fun z => 1 / s - ((1 / 2 : ℝ) : ℂ) / s / q z * (1 - cexp (-2 * q z)))
      ((1 - cexp (-2 * q x) - 2 * cexp (-2 * q x) * q x) / (2 * s * q x ^ 2) * q') x := by
  have hE := hasDerivAt_cexp (hq.const_mul (-2))
  have h := ((((hasDerivAt_const x (((1 / 2 : ℝ) : ℂ) / s)).div hq hq0).mul
    (hE.const_sub 1)).const_sub (1 / s))
  convert h using 1
  generalize cexp (-2 * q x) = E
  generalize q x = w at hq0 ⊢
  push_cast
  field_simp (disch := simp [hs0, hq0])
  ring

theorem hasDerivAt_fullModel_kon (s : ℂ) (kon koff Df R : ℝ)
    (hs : 0 < s.re) (hkon : 0 < kon) (hkoff : 0 < koff) (hDf : 0 < Df) (hR : 0 < R) :
    HasDerivAt (fun k : ℝ => fullModel s k koff Df R)
      (fullModel_kon s kon koff Df R) kon := by
  have hs0 : s ≠ 0 := ne_zero_of_re_pos hs
  have hsk : s + (koff : ℂ) ≠ 0 := add_ofReal_ne_zero hs hkoff.le
  have hskk : s + (koff : ℂ) + (kon : ℂ) ≠ 0 := by
    have := add_ofReal_ne_zero (a := koff + kon) hs (by linarith)
    push_cast at this
    rwa [← add_assoc] at this
  have hkoff0 : (koff : ℂ) ≠ 0 := by exact_mod_cast hkoff.ne'
  have hK : (koff : ℂ) + (kon : ℂ) ≠ 0 := by
    have : (0:ℝ) < koff + kon := by linarith
    exact_mod_cast this.ne'
  have hK2 : (kon : ℂ) + (koff : ℂ) ≠ 0 := by rwa [add_comm]
  have hc0 : ((R * R : ℝ) : ℂ) ≠ 0 := by
    have : (0:ℝ) < R * R := by positivity
    exact_mod_cast this.ne'
  have hDf0 : (Df : ℂ) ≠ 0 := by exact_mod_cast hDf.ne'
  have hre := fullArg_re_pos (s := s) hs hkon.le hkoff.le hDf hR
  have hslit := mem_slitPlane_of_re_pos hre
  have hq0 := csqrt_ne_zero (ne_zero_of_re_pos hre)
  have h1 : (1 : ℂ) + (kon : ℂ) / (koff : ℂ) ≠ 0 := by
    field_simp
    exact hK
  unfold fullModel fullModel_kon
  generalize ((R * R : ℝ) : ℂ) = c at hc0 hslit hq0 ⊢
  -- the pieces of the expression, as functions of a complex `kon`
  have hB : HasDerivAt (fun z : ℂ => 1 + z / (s + (koff : ℂ))) (1 / (s + (koff : ℂ)))
      (kon : ℂ) := ((hasDerivAt_id (kon : ℂ)).div_const _).const_add 1
  have hX : HasDerivAt
      (fun z : ℂ => c * s * (1 + z / (s + (koff : ℂ))) / (Df : ℂ))
      (c * s * (1 / (s + (koff : ℂ))) / (Df : ℂ)) (kon : ℂ) :=
    (hB.const_mul _).div_const _
  have hq : HasDerivAt
      (fun z : ℂ => csqrt (c * s * (1 + z / (s + (koff : ℂ))) / (Df : ℂ)))
      (csqrt (c * s * (1 + (kon : ℂ) / (s + (koff : ℂ))) / (Df : ℂ)) /
        (s + (koff : ℂ) + (kon : ℂ)) / 2) (kon : ℂ) := by
    convert hasDerivAt_csqrt hX hslit using 1
    generalize csqrt (c * s * (1 + (kon : ℂ) / (s + (koff : ℂ))) / (Df : ℂ)) = q
    field_simp (disch := simp [hs0, hsk, hskk, hc0, hDf0])
    ring
  have hD := hasDerivAt_diffusion s hq hq0 hs0
  have hP : HasDerivAt
      (fun z : ℂ => 1 / (1 + z / (koff : ℂ)) * (1 + z / (s + (koff : ℂ))))
      (-((koff : ℂ) * s) / ((s + (koff : ℂ)) * ((kon : ℂ) + (koff : ℂ)) ^ 2)) (kon : ℂ) := by
    convert ((hasDerivAt_const (kon : ℂ) (1 : ℂ)).div
      (((hasDerivAt_id (kon : ℂ)).div_const (koff : ℂ)).const_add 1) h1).mul hB using 1
    simp only [id]
    field_simp (disch := simp [hsk, hkoff0, hK, hK2])
    ring
  have hC : HasDerivAt (fun z : ℂ => z / (koff : ℂ) / (1 + z / (koff : ℂ)) / (s + (koff : ℂ)))
      ((koff : ℂ) / (((kon : ℂ) + (koff : ℂ)) ^ 2 * (s + (koff : ℂ)))) (kon : ℂ) := by
    convert (((hasDerivAt_id (kon : ℂ)).div_const (koff : ℂ)).div
      (((hasDerivAt_id (kon : ℂ)).div_const (koff : ℂ)).const_add 1) h1).div_const _ using 1
    simp only [id]
    field_simp (disch := simp [hsk, hkoff0, hK, hK2])
    ring
  have h := (hP.mul hD).add hC
  convert h.comp_ofReal using 1
  · funext k
    push_cast
    rfl
  · generalize cexp (-2 *
      csqrt (c * s * (1 + (kon : ℂ) / (s + (koff : ℂ))) / (Df : ℂ))) = E
    generalize csqrt (c * s * (1 + (kon : ℂ) / (s + (koff : ℂ))) / (Df : ℂ))
      = q at hq0 ⊢
    push_cast
    clear hP hC hD h hq hX hB hslit hre h1 hK
    generalize (koff : ℂ) = b at *
    generalize (kon : ℂ) = a at *
    obtain ⟨V, rfl⟩ : ∃ V, b = V - s := ⟨s + b, by ring⟩
    obtain ⟨U, rfl⟩ : ∃ U, a = U - (V - s) := ⟨a + (V - s), by ring⟩
    simp only [add_sub_cancel, sub_add_cancel] at *
    field_simp (disch := simp [hs0, hsk, hskk, hkoff0, hK2, hq0])
    ring

set_option maxHeartbeats 1000000 in
theorem hasDerivAt_fullModel_koff (s : ℂ) (kon koff Df R : ℝ)
    (hs : 0 < s.re) (hkon : 0 < kon) (hkoff : 0 < koff) (hDf : 0 < Df) (hR : 0 < R) :
    HasDerivAt (fun k : ℝ => fullModel s kon k Df R)
      (fullModel_koff s kon koff Df R) koff := by
  have hs0 : s ≠ 0 := ne_zero_of_re_pos hs
  have hsk : s + (koff : ℂ) ≠ 0 := add_ofReal_ne_zero hs hkoff.le
  have hskk : s + (koff : ℂ) + (kon : ℂ) ≠ 0 := by
    have := add_ofReal_ne_zero (a := koff + kon) hs (by linarith)
    push_cast at this
    rwa [← add_assoc] at this
  have hkoff0 : (koff : ℂ) ≠ 0 := by exact_mod_cast hkoff.ne'
  have hK : (koff : ℂ) + (kon : ℂ) ≠ 0 := by
    have : (0:ℝ) < koff + kon := by linarith
    exact_mod_cast this.ne'
  have hK2 : (kon : ℂ) + (koff : ℂ) ≠ 0 := by rwa [add_comm]
  have hc0 : ((R * R : ℝ) : ℂ) ≠ 0 := by
    have : (0:ℝ) < R * R := by positivity
    exact_mod_cast this.ne'
  have hDf0 : (Df : ℂ) ≠ 0 := by exact_mod_cast hDf.ne'
  have hre := fullArg_re_pos (s := s) hs hkon.le hkoff.le hDf hR
  have hslit := mem_slitPlane_of_re_pos hre
  have hq0 := csqrt_ne_zero (ne_zero_of_re_pos hre)
  have h1 : (1 : ℂ) + (kon : ℂ) / (koff : ℂ) ≠ 0 := by
    field_simp
    exact hK
  unfold fullModel fullModel_koff
  generalize ((R * R : ℝ) : ℂ) = c at hc0 hslit hq0 ⊢
  -- the pieces of the expression, as functions of a complex `koff`
  have hsz : HasDerivAt (fun z : ℂ => s + z) 1 (koff : ℂ) :=
    (hasDerivAt_id (koff : ℂ)).const_add s
  have hB : HasDerivAt (fun z : ℂ => 1 + (kon : ℂ) / (s + z))
      (-(kon : ℂ) / (s + (koff : ℂ)) ^ 2) (koff : ℂ) := by
    convert ((hasDerivAt_const (koff : ℂ) (kon : ℂ)).div hsz hsk).const_add 1 using 1
    ring
  have hX : HasDerivAt (fun z : ℂ => c * s * (1 + (kon : ℂ) / (s + z)) / (Df : ℂ)) _
      (koff : ℂ) := (hB.const_mul (c * s)).div_const _
  have hq : HasDerivAt
      (fun z : ℂ => csqrt (c * s * (1 + (kon : ℂ) / (s + z)) / (Df : ℂ)))
      (-(csqrt (c * s * (1 + (kon : ℂ) / (s + (koff : ℂ))) / (Df : ℂ)) * (kon : ℂ)) /
        (s + (koff : ℂ)) / (s + (koff : ℂ) + (kon : ℂ)) / 2) (koff : ℂ) := by
    convert hasDerivAt_csqrt hX hslit using 1
    generalize csqrt (c * s * (1 + (kon : ℂ) / (s + (koff : ℂ))) / (Df : ℂ)) = q
    field_simp (disch := simp [hs0, hsk, hskk, hc0, hDf0])
    ring
  have hD := hasDerivAt_diffusion s hq hq0 hs0
  have hA1 : HasDerivAt (fun z : ℂ => 1 + (kon : ℂ) / z) (-(kon : ℂ) / (koff : ℂ) ^ 2)
      (koff : ℂ) := by
    convert ((hasDerivAt_const (koff : ℂ) (kon : ℂ)).div (hasDerivAt_id (koff : ℂ))
      hkoff0).const_add 1 using 1
    simp only [id]
    ring
  have hP : HasDerivAt
      (fun z : ℂ => 1 / (1 + (kon : ℂ) / z) * (1 + (kon : ℂ) / (s + z)))
      ((kon : ℂ) * (s + (koff : ℂ) + (kon : ℂ)) /
          (((kon : ℂ) + (koff : ℂ)) ^ 2 * (s + (koff : ℂ))) -
        (koff : ℂ) * (kon : ℂ) / (((kon : ℂ) + (koff : ℂ)) * (s + (koff : ℂ)) ^ 2))
      (koff : ℂ) := by
    convert ((hasDerivAt_const (koff : ℂ) (1 : ℂ)).div hA1 h1).mul hB using 1
    field_simp (disch := simp [hsk, hkoff0, hK, hK2])
    ring
  have hC : HasDerivAt (fun z : ℂ => (kon : ℂ) / z / (1 + (kon : ℂ) / z) / (s + z))
      (-((kon : ℂ) * (s + (koff : ℂ) + ((kon : ℂ) + (koff : ℂ)))) /
        (((kon : ℂ) + (koff : ℂ)) ^ 2 * (s + (koff : ℂ)) ^ 2)) (koff : ℂ) := by
    convert ((((hasDerivAt_const (koff : ℂ) (kon : ℂ)).div (hasDerivAt_id (koff : ℂ))
      hkoff0).div hA1 h1).div hsz hsk) using 1
    simp only [id]
    field_simp (disch := simp [hsk, hkoff0, hK, hK2])
    ring
  have h := (hP.mul hD).add hC
  convert h.comp_ofReal using 1
  · funext k
    push_cast
    rfl
  · simp only [cpow_two]
    generalize cexp (-2 *
      csqrt (c * s * (1 + (kon : ℂ) / (s + (koff : ℂ))) / (Df : ℂ))) = E
    generalize csqrt (c * s * (1 + (kon : ℂ) / (s + (koff : ℂ))) / (Df : ℂ))
      = q at hq0 ⊢
    push_cast
    clear hP hC hD h hq hX hA1 hB hsz hslit hre h1 hK
    generalize (koff : ℂ) = b at *
    generalize (kon : ℂ) = a at *
    obtain ⟨V, rfl⟩ : ∃ V, b = V - s := ⟨s + b, by ring⟩
    obtain ⟨U, rfl⟩ : ∃ U, a = U - (V - s) := ⟨a + (V - s), by ring⟩
    simp only [add_sub_cancel, sub_add_cancel] at *
    field_simp (disch := simp [hs0, hsk, hskk, hkoff0, hK2, hq0])
    ring

theorem hasDerivAt_reactionDominantPure_kon (s : ℂ) (kon koff Df R : ℝ)
    (hs : 0 < s.re) (hkon : 0 < kon) (hkoff : 0 < koff) (hDf : 0 < Df) (hR : 0 < R) :
    HasDerivAt (fun k : ℝ => reactionDominantPure s k koff Df R)
      (reactionDominantPure_kon s kon koff Df R) kon := by
  have hK : (kon : ℂ) + (koff : ℂ) ≠ 0 := by
    have : (0:ℝ) < kon + koff := by linarith
    exact_mod_cast this.ne'
  have hsk : s + (koff : ℂ) ≠ 0 := add_ofReal_ne_zero hs hkoff.le
  unfold reactionDominantPure reactionDominantPure_kon
  generalize (1 / s - ((1 / 2 : ℝ) : ℂ) / s / csqrt (((R * R : ℝ) : ℂ) * s / (Df : ℂ)) *
        (1 - cexp (-2 * csqrt (((R * R : ℝ) : ℂ) * s / (Df : ℂ))))) = D
  have hz : HasDerivAt (fun z : ℂ => z + (koff : ℂ)) 1 (kon : ℂ) :=
    (hasDerivAt_id _).add_const _
  have h := (((hasDerivAt_const (kon : ℂ) (koff : ℂ)).div hz hK).mul_const D).add
    (((hasDerivAt_id (kon : ℂ)).div hz hK).div_const (s + (koff : ℂ)))
  convert h.comp_ofReal using 1
  · funext k
    push_cast
    rfl
  · simp only [id, cpow_two]
    push_cast
    field_simp (disch := simp [hK, hsk])
    ring

theorem hasDerivAt_reactionDominantPure_koff (s : ℂ) (kon koff Df R : ℝ)
    (hs : 0 < s.re) (hkon : 0 < kon) (hkoff : 0 < koff) (hDf : 0 < Df) (hR : 0 < R) :
    HasDerivAt (fun k : ℝ => reactionDominantPure s kon k Df R)
      (reactionDominantPure_koff s kon koff Df R) koff := by
  have hK : (kon : ℂ) + (koff : ℂ) ≠ 0 := by
    have : (0:ℝ) < kon + koff := by linarith
    exact_mod_cast this.ne'
  have hsk : s + (koff : ℂ) ≠ 0 := add_ofReal_ne_zero hs hkoff.le
  unfold reactionDominantPure reactionDominantPure_koff
  generalize (1 / s - ((1 / 2 : ℝ) : ℂ) / s / csqrt (((R * R : ℝ) : ℂ) * s / (Df : ℂ)) *
        (1 - cexp (-2 * csqrt (((R * R : ℝ) : ℂ) * s / (Df : ℂ))))) = D
  have hz : HasDerivAt (fun z : ℂ => (kon : ℂ) + z) 1 (koff : ℂ) :=
    (hasDerivAt_id _).const_add _
  have hsz : HasDerivAt (fun z : ℂ => s + z) 1 (koff : ℂ) :=
    (hasDerivAt_id _).const_add _
  have h := (((hasDerivAt_id (koff : ℂ)).div hz hK).mul_const D).add
    (((hasDerivAt_const (koff : ℂ) (kon : ℂ)).div hz hK).div hsz hsk)
  convert h.comp_ofReal using 1
  · funext k
    push_cast
    rfl
  · simp only [id]
    push_cast
    field_simp (disch := simp [hK, hsk])
    ring

theorem hasDerivAt_hybridModel_kon (s : ℂ) (kon koff Df R : ℝ)
    (hs : 0 < s.re) (hkon : 0 < kon) (hkoff : 0 < koff) (hDf : 0 < Df) (hR : 0 < R) :
    HasDerivAt (fun k : ℝ => hybridModel s k koff Df R)
      (hybridModel_kon s kon koff Df R) kon := by
  have hs0 : s ≠ 0 := ne_zero_of_re_pos hs
  have hsk : s + (koff : ℂ) ≠ 0 := add_ofReal_ne_zero hs hkoff.le
  have hkon0 : (kon : ℂ) ≠ 0 := by exact_mod_cast hkon.ne'
  have hR0 : (R : ℂ) ≠ 0 := by exact_mod_cast hR.ne'
  have hDf0 : (Df : ℂ) ≠ 0 := by exact_mod_cast hDf.ne'
  have hXY : ((R * R : ℝ) : ℂ) * s / (Df : ℂ) * (kon : ℂ) / (s + (koff : ℂ))
      = (R : ℂ) * (R : ℂ) * (kon : ℂ) * s / (Df : ℂ) / (s + (koff : ℂ)) := by
    push_cast
    ring
  have hre := hybridArg_re_pos (s := s) hs hkon hkoff.le hDf hR
  rw [hXY] at hre
  have hslit := mem_slitPlane_of_re_pos hre
  have hq0 := csqrt_ne_zero (ne_zero_of_re_pos hre)
  have hq2 := csqrt_sq ((R : ℂ) * (R : ℂ) * (kon : ℂ) * s / (Df : ℂ) / (s + (koff : ℂ)))
  unfold hybridModel hybridModel_kon
  simp only [hXY, cpow_three_halves]
  -- the pieces of the expression, as functions of a complex `kon`
  have hX : HasDerivAt
      (fun z : ℂ => (R : ℂ) * (R : ℂ) * z * s / (Df : ℂ) / (s + (koff : ℂ))) _ (kon : ℂ) :=
    ((((hasDerivAt_id (kon : ℂ)).const_mul ((R : ℂ) * (R : ℂ))).mul_const s).div_const
      (Df : ℂ)).div_const (s + (koff : ℂ))
  have hq : HasDerivAt
      (fun z : ℂ => csqrt ((R : ℂ) * (R : ℂ) * z * s / (Df : ℂ) / (s + (koff : ℂ))))
      (csqrt ((R : ℂ) * (R : ℂ) * (kon : ℂ) * s / (Df : ℂ) / (s + (koff : ℂ))) /
        (kon : ℂ) / 2) (kon : ℂ) := by
    convert hasDerivAt_csqrt hX hslit using 1
    generalize csqrt ((R : ℂ) * (R : ℂ) * (kon : ℂ) * s / (Df : ℂ) / (s + (koff : ℂ))) = q
    field_simp (disch := simp [hs0, hsk, hkon0, hR0, hDf0])
    ring
  have hD := hasDerivAt_diffusion s hq hq0 hs0
  have h := (hD.const_mul ((koff : ℂ) / (s + (koff : ℂ)))).add_const (1 / (s + (koff : ℂ)))
  convert h.comp_ofReal using 1
  · funext k
    push_cast
    rfl
  · generalize cexp (-2 *
      csqrt ((R : ℂ) * (R : ℂ) * (kon : ℂ) * s / (Df : ℂ) / (s + (koff : ℂ)))) = E
    generalize csqrt ((R : ℂ) * (R : ℂ) * (kon : ℂ) * s / (Df : ℂ) / (s + (koff : ℂ)))
      = q at hq0 hq2 ⊢
    generalize (Df : ℂ) = d at hDf0 hq2 ⊢
    have hd : d = (R : ℂ) * (R : ℂ) * (kon : ℂ) * s / (q ^ 2 * (s + (koff : ℂ))) := by
      rw [hq2]
      field_simp (disch := simp [hs0, hsk, hkon0, hR0, hDf0])
      ring
    subst hd
    clear hD h hq hX hslit hre hXY
    generalize (koff : ℂ) = b at *
    obtain ⟨V, rfl⟩ : ∃ V, b = V - s := ⟨s + b, by ring⟩
    simp only [add_sub_cancel] at *
    field_simp (disch := simp [hs0, hsk, hkon0, hR0, hq0])
    ring

theorem hasDerivAt_hybridModel_koff (s : ℂ) (kon koff Df R : ℝ)
    (hs : 0 < s.re) (hkon : 0 < kon) (hkoff : 0 < koff) (hDf : 0 < Df) (hR : 0 < R) :
    HasDerivAt (fun k : ℝ => hybridModel s kon k Df R)
      (hybridModel_koff s kon koff Df R) koff := by
  have hs0 : s ≠ 0 := ne_zero_of_re_pos hs
  have hsk : s + (koff : ℂ) ≠ 0 := add_ofReal_ne_zero hs hkoff.le
  have hkon0 : (kon : ℂ) ≠ 0 := by exact_mod_cast hkon.ne'
  have hR0 : (R : ℂ) ≠ 0 := by exact_mod_cast hR.ne'
  have hDf0 : (Df : ℂ) ≠ 0 := by exact_mod_cast hDf.ne'
  have hXY : ((R * R : ℝ) : ℂ) * s / (Df : ℂ) * (kon : ℂ) / (s + (koff : ℂ))
      = (R : ℂ) * (R : ℂ) * (kon : ℂ) * s / (Df : ℂ) / (s + (koff : ℂ)) := by
    push_cast
    ring
  have hre := hybridArg_re_pos (s := s) hs hkon hkoff.le hDf hR
  rw [hXY] at hre
  have hslit := mem_slitPlane_of_re_pos hre
  have hq0 := csqrt_ne_zero (ne_zero_of_re_pos hre)
  have hq2 := csqrt_sq ((R : ℂ) * (R : ℂ) * (kon : ℂ) * s / (Df : ℂ) / (s + (koff : ℂ)))
  have hEE : cexp (2 *
      csqrt ((R : ℂ) * (R : ℂ) * (kon : ℂ) * s / (Df : ℂ) / (s + (koff : ℂ))))
      = (cexp (-2 *
        csqrt ((R : ℂ) * (R : ℂ) * (kon : ℂ) * s / (Df : ℂ) / (s + (koff : ℂ)))))⁻¹ := by
    unfold cexp
    rw [← Complex.exp_neg]
    congr 1
    ring
  have hE0 : cexp (-2 *
      csqrt ((R : ℂ) * (R : ℂ) * (kon : ℂ) * s / (Df : ℂ) / (s + (koff : ℂ)))) ≠ 0 :=
    Complex.exp_ne_zero _
  unfold hybridModel hybridModel_koff
  simp only [hXY, cpow_three_halves, cpow_two, cpow_three, hEE]
  -- the pieces of the expression, as functions of a complex `koff`
  have hsz : HasDerivAt (fun z : ℂ => s + z) 1 (koff : ℂ) :=
    (hasDerivAt_id (koff : ℂ)).const_add s
  have hX : HasDerivAt
      (fun z : ℂ => (R : ℂ) * (R : ℂ) * (kon : ℂ) * s / (Df : ℂ) / (s + z)) _ (koff : ℂ) :=
    (hasDerivAt_const (koff : ℂ) ((R : ℂ) * (R : ℂ) * (kon : ℂ) * s / (Df : ℂ))).div hsz hsk
  have hq : HasDerivAt
      (fun z : ℂ => csqrt ((R : ℂ) * (R : ℂ) * (kon : ℂ) * s / (Df : ℂ) / (s + z)))
      (-csqrt ((R : ℂ) * (R : ℂ) * (kon : ℂ) * s / (Df : ℂ) / (s + (koff : ℂ))) /
        (s + (koff : ℂ)) / 2) (koff : ℂ) := by
    convert hasDerivAt_csqrt hX hslit using 1
    generalize csqrt ((R : ℂ) * (R : ℂ) * (kon : ℂ) * s / (Df : ℂ) / (s + (koff : ℂ))) = q
    field_simp (disch := simp [hs0, hsk, hkon0, hR0, hDf0])
    ring
  have hD := hasDerivAt_diffusion s hq hq0 hs0
  have h := (((hasDerivAt_id (koff : ℂ)).div hsz hsk).mul hD).add
    ((hasDerivAt_const (koff : ℂ) (1 : ℂ)).div hsz hsk)
  convert h.comp_ofReal using 1
  · funext k
    push_cast
    rfl
  · simp only [id]
    generalize cexp (-2 *
      csqrt ((R : ℂ) * (R : ℂ) * (kon : ℂ) * s / (Df : ℂ) / (s + (koff : ℂ)))) = E at hE0 ⊢
    generalize csqrt ((R : ℂ) * (R : ℂ) * (kon : ℂ) * s / (Df : ℂ) / (s + (koff : ℂ)))
      = q at hq0 hq2 ⊢
    generalize (Df : ℂ) = d at hDf0 hq2 ⊢
    have hd : d = (R : ℂ) * (R : ℂ) * (kon : ℂ) * s / (q ^ 2 * (s + (koff : ℂ))) := by
      rw [hq2]
      field_simp (disch := simp [hs0, hsk, hkon0, hR0, hDf0])
      ring
    subst hd
    push_cast
    clear hD h hq hX hsz hslit hre hXY hEE
    generalize (koff : ℂ) = b at *
    obtain ⟨V, rfl⟩ : ∃ V, b = V - s := ⟨s + b, by ring⟩
    simp only [add_sub_cancel] at *
    field_simp (disch := simp [hs0, hsk, hkon0, hR0, hq0, hE0])
    ring

/-! ## The quadrature loop of `invlap` in closed form -/

theorem invlap_body_iterate (F : LaplaceImage) (t kon koff Df R sigma delta : ℝ) (n : ℕ) :
    (invlap_body F t kon koff Df R sigma delta)^[n] (0.0, 0.0)
      = (∑ i in Finset.range n, 0.5 * delta *
          (invlap_sample F t kon koff Df R sigma delta i +
            invlap_sample F t kon koff Df R sigma delta (i + 1)), n * delta) := by
  induction n with
  | zero => norm_num
  | succ n ih =>
    rw [Function.iterate_succ_apply', ih, Finset.sum_range_succ]
    have e1 : (n : ℝ) * delta + delta = ((n + 1 : ℕ) : ℝ) * delta := by
      push_cast
      ring
    simp only [invlap_body, invlap_sample, e1]
    refine Prod.ext ?_ rfl
    simp only
    have e3 : ((n + 1 : ℕ) : ℝ) * delta - (n : ℝ) * delta = delta := by
      push_cast
      ring
    rw [e3]

theorem invlap_quadrature_eq (F : LaplaceImage) (t kon koff Df R : ℝ) :
    invlap_quadrature F t kon koff Df R
      = (∑ i in Finset.range 10000, 0.5 * (200 / 10000) *
          (invlap_sample F t kon koff Df R 0.05 (200 / 10000) i +
            invlap_sample F t kon koff Df R 0.05 (200 / 10000) (i + 1))) *
        Real.exp (0.05 * t) / Real.pi := by
  unfold invlap_quadrature
  simp only
  have e : ((200.0 : ℝ) / ((10000 : ℕ) : ℝ)) = 200 / 10000 := by norm_num
  rw [e, invlap_body_iterate]
  simp only [cexp]
  rw [← Complex.ofReal_exp, ← Complex.ofReal_mul, ← Complex.ofReal_div, Complex.ofReal_re]

theorem invlap_eq_of_laplace_fun {m : String} {fd : Int} {F : LaplaceImage}
    (hF : laplace_fun m fd = some F) (t kon koff Df R : ℝ) :
    invlap t kon koff Df R m fd = some (invlap_quadrature F t kon koff Df R) := by
  unfold invlap
  rw [hF]

/-- The sample the specification describes is `exp(sigma*t)` times the sample of the
source. -/
theorem specified_sample_eq (F : LaplaceImage) (t kon koff Df R sigma delta : ℝ) (k : ℕ) :
    (Complex.exp (((sigma : ℂ) + ((k * delta : ℝ) : ℂ) * Complex.I) * (t : ℂ)) *
      F ((sigma : ℂ) + ((k * delta : ℝ) : ℂ) * Complex.I) kon koff Df R).re
      = Real.exp (sigma * t) * invlap_sample F t kon koff Df R sigma delta k := by
  unfold invlap_sample cexp
  have e : ((sigma : ℂ) + ((k * delta : ℝ) : ℂ) * Complex.I) * (t : ℂ)
      = ((sigma * t : ℝ) : ℂ) + (0 + ((k * delta * t : ℝ) : ℂ) * Complex.I) := by
    push_cast
    ring
  rw [e, Complex.exp_add, ← Complex.ofReal_exp, mul_assoc, Complex.re_ofReal_mul]

theorem invlap_as_specified_eq (F : LaplaceImage) (t kon koff Df R : ℝ) :
    invlap_as_specified F t kon koff Df R
      = Real.exp (0.05 * t) * invlap_quadrature F t kon koff Df R := by
  rw [invlap_quadrature_eq]
  unfold invlap_as_specified
  simp only
  have e : ((200 : ℝ) / ((10000 : ℕ) : ℝ)) = 200 / 10000 := by norm_num
  rw [e]
  simp only [specified_sample_eq]
  rw [← Complex.ofReal_exp, ← Complex.ofReal_mul, ← Complex.ofReal_div, Complex.ofReal_re]
  simp only [← mul_add]
  rw [Finset.sum_congr rfl (fun i _ => mul_left_comm (0.5 * (200 / 10000) : ℝ)
    (Real.exp (0.05 * t)) _), ← Finset.mul_sum]
  ring

/-! ## A positive lower bound for the samples of one concrete inversion -/

theorem csqrt_re_nonneg (z : ℂ) : 0 ≤ (csqrt z).re := by
  unfold csqrt
  by_cases hz : z = 0
  · subst hz
    rw [Complex.zero_cpow (by norm_num)]
    simp
  · rw [Complex.cpow_def_of_ne_zero hz, Complex.exp_re]
    apply mul_nonneg (Real.exp_pos _).le
    apply Real.cos_nonneg_of_neg_pi_div_two_le_of_le
    · have h := Complex.neg_pi_lt_arg z
      simp only [Complex.mul_im, Complex.log_im, Complex.log_re]
      norm_num
      linarith
    · have h := Complex.arg_le_pi z
      simp only [Complex.mul_im, Complex.log_im, Complex.log_re]
      norm_num
      linarith

theorem abs_csqrt_sq (z : ℂ) : Complex.abs (csqrt z) ^ 2 = Complex.abs z := by
  rw [← map_pow, csqrt_sq]

theorem abs_one_sub_cexp_le (q : ℂ) (hq : 0 ≤ q.re) : Complex.abs (1 - cexp (-2 * q)) ≤ 2 := by
  unfold cexp
  have h1 : Complex.abs (Complex.exp (-2 * q)) ≤ 1 := by
    rw [Complex.abs_exp]
    apply Real.exp_le_one_iff.mpr
    simp
    linarith
  have h2 := Complex.abs.add_le 1 (-Complex.exp (-2 * q))
  rw [← sub_eq_add_neg, Complex.abs.map_neg, map_one] at h2
  linarith

/-- For `reactionDominantPure` with `kon = koff = Df = 1` and `R = 300`, the image has a
positive real part at every point `s` with `Re s = 0.05` and `|s|^2 <= 50000`. -/
theorem reactionDominantPure_re_pos_example (s : ℂ) (hre : s.re = 0.05)
    (hn : Complex.normSq s ≤ 50000) :
    0 < (reactionDominantPure s 1 1 1 300).re := by
  have hs0 : s ≠ 0 := ne_zero_of_re_pos (by rw [hre]; norm_num)
  have ha : 0 < Complex.abs s := Complex.abs.pos hs0
  have ha2 : Complex.abs s ^ 2 = Complex.normSq s := Complex.sq_abs s
  have hX0 : ((300 * 300 : ℝ) : ℂ) * s / ((1 : ℝ) : ℂ) ≠ 0 := by
    simp [hs0]
  have hq0 := csqrt_ne_zero hX0
  have hqre := csqrt_re_nonneg (((300 * 300 : ℝ) : ℂ) * s / ((1 : ℝ) : ℂ))
  have hqa := abs_csqrt_sq (((300 * 300 : ℝ) : ℂ) * s / ((1 : ℝ) : ℂ))
  have hE := abs_one_sub_cexp_le _ hqre
  have hr : 0 < Complex.abs (csqrt (((300 * 300 : ℝ) : ℂ) * s / ((1 : ℝ) : ℂ))) :=
    Complex.abs.pos hq0
  have hXa : Complex.abs (((300 * 300 : ℝ) : ℂ) * s / ((1 : ℝ) : ℂ))
      = 90000 * Complex.abs s := by
    rw [map_div₀, map_mul, Complex.abs_ofReal, Complex.abs_ofReal]
    norm_num
  rw [hXa] at hqa
  unfold reactionDominantPure
  generalize cexp (-2 * csqrt (((300 * 300 : ℝ) : ℂ) * s / ((1 : ℝ) : ℂ))) = E at hE ⊢
  generalize csqrt (((300 * 300 : ℝ) : ℂ) * s / ((1 : ℝ) : ℂ)) = q at hq0 hqa hr hE ⊢
  -- the diffusion term is dominated by `Re (1/s)`
  have hT : Complex.abs (((1 / 2 : ℝ) : ℂ) / s / q * (1 - E))
      ≤ 1 / (Complex.abs s * Complex.abs q) := by
    rw [map_mul, map_div₀, map_div₀, Complex.abs_ofReal]
    have h12 : |(1 / 2 : ℝ)| = 1 / 2 := by norm_num
    rw [h12]
    calc 1 / 2 / Complex.abs s / Complex.abs q * Complex.abs (1 - E)
        ≤ 1 / 2 / Complex.abs s / Complex.abs q * 2 :=
          mul_le_mul_of_nonneg_left hE (by positivity)
      _ = 1 / (Complex.abs s * Complex.abs q) := by
          field_simp
          ring
  have hle : Complex.abs s ≤ 0.05 * Complex.abs q := by
    by_contra hcon
    push_neg at hcon
    have h1 : (0.05 * Complex.abs q) ^ 2 < Complex.abs s ^ 2 :=
      pow_lt_pow_left₀ hcon (by positivity) (by norm_num)
    have h2 : (0.05 * Complex.abs q) ^ 2 = 225 * Complex.abs s := by
      rw [mul_pow, hqa]
      norm_num
      ring
    have h3 : Complex.abs s ^ 2 ≤ 50000 := by rw [ha2]; exact hn
    nlinarith
  have hdom : 1 / (Complex.abs s * Complex.abs q) ≤ 0.05 / Complex.abs s ^ 2 := by
    rw [div_le_div_iff₀ (by positivity) (by positivity)]
    nlinarith
  have hTre : (((1 / 2 : ℝ) : ℂ) / s / q * (1 - E)).re ≤ 0.05 / Complex.abs s ^ 2 :=
    le_trans (Complex.re_le_abs _) (le_trans hT hdom)
  have h1s : (1 / s).re = 0.05 / Complex.abs s ^ 2 := by
    rw [one_div, Complex.inv_re, hre, ha2]
  have hs1 : s + ((1 : ℝ) : ℂ) ≠ 0 := add_ofReal_ne_zero (by rw [hre]; norm_num) zero_le_one
  have hn1 : 0 < Complex.normSq (s + ((1 : ℝ) : ℂ)) := Complex.normSq_pos.mpr hs1
  have h2 : 0 < (((1 / (1 + 1) : ℝ) : ℂ) / (s + ((1 : ℝ) : ℂ))).re := by
    rw [div_eq_mul_inv, Complex.re_ofReal_mul, Complex.inv_re]
    have : (s + ((1 : ℝ) : ℂ)).re = 1.05 := by
      simp [hre]
      norm_num
    rw [this]
    positivity
  rw [Complex.add_re, Complex.re_ofReal_mul, Complex.sub_re, h1s]
  have h3 : 0 ≤ (1 / (1 + 1) : ℝ) *
      (0.05 / Complex.abs s ^ 2 - (((1 / 2 : ℝ) : ℂ) / s / q * (1 - E)).re) :=
    mul_nonneg (by norm_num) (by linarith)
  linarith

theorem invlap_sample_pos_example (k : ℕ) (hk : k ≤ 10000) :
    0 < invlap_sample reactionDominantPure (100 * Real.pi) 1 1 1 300 0.05 (200 / 10000) k := by
  unfold invlap_sample cexp
  have e1 : (0 : ℂ) + ((k * (200 / 10000) * (100 * Real.pi) : ℝ) : ℂ) * Complex.I
      = (k : ℂ) * (2 * Real.pi * Complex.I) := by
    push_cast
    ring
  rw [e1, Complex.exp_nat_mul_two_pi_mul_I, one_mul]
  apply reactionDominantPure_re_pos_example
  · simp
  · have hk' : (k : ℝ) ≤ 10000 := by exact_mod_cast hk
    have hk0 : (0 : ℝ) ≤ k := Nat.cast_nonneg k
    simp [Complex.normSq_apply]
    nlinarith

theorem invlap_quadrature_pos_example :
    0 < invlap_quadrature reactionDominantPure (100 * Real.pi) 1 1 1 300 := by
  rw [invlap_quadrature_eq]
  have hS : 0 < ∑ i in Finset.range 10000, (0.5 : ℝ) * (200 / 10000) *
      (invlap_sample reactionDominantPure (100 * Real.pi) 1 1 1 300 0.05 (200 / 10000) i +
        invlap_sample reactionDominantPure (100 * Real.pi) 1 1 1 300 0.05 (200 / 10000)
          (i + 1)) := by
    apply Finset.sum_pos
    · intro i hi
      have hi' : i < 10000 := Finset.mem_range.mp hi
      have h1 := invlap_sample_pos_example i (by omega)
      have h2 := invlap_sample_pos_example (i + 1) (by omega)
      positivity
    · exact Finset.nonempty_range_iff.mpr (by norm_num)
  exact div_pos (mul_pos hS (Real.exp_pos _)) Real.pi_pos

/-! ## The callbacks `model_f` and `model_df` -/

theorem model_f_loop_eq (d : data) (kon koff : ℝ) (f : ℕ → ℝ) (F : LaplaceImage)
    (hF : laplace_fun d.m 0 = some F) (k : ℕ) :
    model_f_loop d kon koff f k
      = some (fun i => if i < k then
          (invlap_quadrature F (d.time i) kon koff d.Df d.R - d.y i) / d.sigma i
        else f i) := by
  induction k with
  | zero => simp [model_f_loop]
  | succ k ih =>
    simp only [model_f_loop, ih, invlap_eq_of_laplace_fun hF, gsl_vector_set]
    congr 1
    funext i
    by_cases h : i = k
    · subst h
      simp
    · rw [Function.update_noteq h]
      have h2 : i < k + 1 ↔ i < k := by omega
      simp only [h2]

theorem model_df_loop_eq (d : data) (kon koff : ℝ) (J : ℕ → ℕ → ℝ) (F1 F2 : LaplaceImage)
    (hF1 : laplace_fun d.m 1 = some F1) (hF2 : laplace_fun d.m 2 = some F2) (k : ℕ) :
    model_df_loop d kon koff J k
      = some (fun i j => if i < k ∧ j = 0 then
          invlap_quadrature F1 (d.time i) kon koff d.Df d.R / d.sigma i
        else if i < k ∧ j = 1 then
          invlap_quadrature F2 (d.time i) kon koff d.Df d.R / d.sigma i
        else J i j) := by
  induction k with
  | zero => simp [model_df_loop]
  | succ k ih =>
    simp only [model_df_loop, ih, invlap_eq_of_laplace_fun hF1, invlap_eq_of_laplace_fun hF2,
      gsl_matrix_set]
    congr 1
    funext i j
    by_cases h : i = k
    · subst h
      by_cases hj1 : j = 1
      · subst hj1
        simp
      · by_cases hj0 : j = 0
        · subst hj0
          simp
        · simp [Function.update_noteq hj1, Function.update_noteq hj0, hj0, hj1]
    · rw [Function.update_noteq h, Function.update_noteq h]
      have h2 : i < k + 1 ↔ i < k := by omega
      simp only [h2]

/-! ## The Jacobian of `model_df` is the derivative of the residuals of `model_f` -/

theorem hasDerivAt_re {f : ℝ → ℂ} {f' : ℂ} {x : ℝ} (hf : HasDerivAt f f' x) :
    HasDerivAt (fun y => (f y).re) f'.re x :=
  Complex.reCLM.hasFDerivAt.comp_hasDerivAt x hf

/-- Differentiation passes through the trapezoidal sum and the final scaling. -/
theorem hasDerivAt_trapezoid (g : ℕ → ℝ → ℝ) (g' : ℕ → ℝ) (x0 c E : ℝ) (N : ℕ)
    (h : ∀ i, HasDerivAt (g i) (g' i) x0) :
    HasDerivAt (fun k => (∑ i in Finset.range N, c * (g i k + g (i + 1) k)) * E / Real.pi)
      ((∑ i in Finset.range N, c * (g' i + g' (i + 1))) * E / Real.pi) x0 := by
  have hsum : HasDerivAt (fun k => ∑ i in Finset.range N, c * (g i k + g (i + 1) k))
      (∑ i in Finset.range N, c * (g' i + g' (i + 1))) x0 :=
    HasDerivAt.sum (fun i _ => ((h i).add (h (i + 1))).const_mul c)
  exact (hsum.mul_const E).div_const Real.pi

theorem hasDerivAt_invlap_quadrature_kon (F F' : LaplaceImage) (t kon koff Df R : ℝ)
    (h : ∀ s : ℂ, 0 < s.re → HasDerivAt (fun k : ℝ => F s k koff Df R) (F' s kon koff Df R) kon) :
    HasDerivAt (fun k : ℝ => invlap_quadrature F t k koff Df R)
      (invlap_quadrature F' t kon koff Df R) kon := by
  simp only [invlap_quadrature_eq]
  apply hasDerivAt_trapezoid
    (fun i k => invlap_sample F t k koff Df R 0.05 (200 / 10000) i)
    (fun i => invlap_sample F' t kon koff Df R 0.05 (200 / 10000) i)
  intro i
  unfold invlap_sample
  exact hasDerivAt_re ((h _ (by norm_num)).const_mul _)

theorem hasDerivAt_invlap_quadrature_koff (F F' : LaplaceImage) (t kon koff Df R : ℝ)
    (h : ∀ s : ℂ, 0 < s.re → HasDerivAt (fun k : ℝ => F s kon k Df R) (F' s kon koff Df R) koff) :
    HasDerivAt (fun k : ℝ => invlap_quadrature F t kon k Df R)
      (invlap_quadrature F' t kon koff Df R) koff := by
  simp only [invlap_quadrature_eq]
  apply hasDerivAt_trapezoid
    (fun i k => invlap_sample F t kon k Df R 0.05 (200 / 10000) i)
    (fun i => invlap_sample F' t kon koff Df R 0.05 (200 / 10000) i)
  intro i
  unfold invlap_sample
  exact hasDerivAt_re ((h _ (by norm_num)).const_mul _)

/-- For a regime with value image `F` and derivative images `F1`, `F2`, the Jacobian
that `model_df` writes is the derivative of the residuals that `model_f` writes. -/
theorem jacobian_of_images (d : data) (kon koff : ℝ) (f0 : ℕ → ℝ) (J0 : ℕ → ℕ → ℝ)
    (F F1 F2 : LaplaceImage) (hF : laplace_fun d.m 0 = some F)
    (hF1 : laplace_fun d.m 1 = some F1) (hF2 : laplace_fun d.m 2 = some F2)
    (h1 : ∀ s : ℂ, 0 < s.re →
      HasDerivAt (fun k : ℝ => F s k koff d.Df d.R) (F1 s kon koff d.Df d.R) kon)
    (h2 : ∀ s : ℂ, 0 < s.re →
      HasDerivAt (fun k : ℝ => F s kon k d.Df d.R) (F2 s kon koff d.Df d.R) koff) :
    ∃ (r : ℝ → ℝ → ℕ → ℝ) (J : ℕ → ℕ → ℝ),
      (∀ a b, model_f (x_init a b) d f0 = some (GSL_SUCCESS, r a b)) ∧
      model_df (x_init kon koff) d J0 = some (GSL_SUCCESS, J) ∧
      ∀ i, i < d.n →
        HasDerivAt (fun a => r a koff i) (J i 0) kon ∧
        HasDerivAt (fun b => r kon b i) (J i 1) koff := by
  refine ⟨fun a b i => if i < d.n then
      (invlap_quadrature F (d.time i) a b d.Df d.R - d.y i) / d.sigma i
    else f0 i,
    fun i j => if i < d.n ∧ j = 0 then
      invlap_quadrature F1 (d.time i) kon koff d.Df d.R / d.sigma i
    else if i < d.n ∧ j = 1 then
      invlap_quadrature F2 (d.time i) kon koff d.Df d.R / d.sigma i
    else J0 i j, ?_, ?_, ?_⟩
  · intro a b
    simp only [model_f, gsl_vector_get, x_init, model_f_loop_eq d _ _ f0 F hF]
    simp
  · simp only [model_df, gsl_vector_get, x_init, model_df_loop_eq d _ _ J0 F1 F2 hF1 hF2]
    simp
  · intro i hi
    simp only [hi, if_true, true_and]
    constructor
    · exact ((hasDerivAt_invlap_quadrature_kon F F1 (d.time i) kon koff d.Df d.R h1).sub_const
        (d.y i)).div_const (d.sigma i)
    · simp only [if_neg (show ¬ (1 : ℕ) = 0 by norm_num), if_true]
      exact ((hasDerivAt_invlap_quadrature_koff F F2 (d.time i) kon koff d.Df d.R h2).sub_const
        (d.y i)).div_const (d.sigma i)

/-! ## The claims -/

/-- Claim C1: for every complex `s` with positive real part and all positive reals
`kon`, `koff`, `Df`, `R`, the map `k ↦ fullModel(s, k, koff, Df, R)` is differentiable at
`k = kon` and its derivative there is `fullModel_kon(s, kon, koff, Df, R)`. -/
theorem fullModel_kon_is_derivative (s : ℂ) (kon koff Df R : ℝ)
    (hs : 0 < s.re) (hkon : 0 < kon) (hkoff : 0 < koff) (hDf : 0 < Df) (hR : 0 < R) :
    HasDerivAt (fun k : ℝ => fullModel s k koff Df R)
      (fullModel_kon s kon koff Df R) kon :=
  hasDerivAt_fullModel_kon s kon koff Df R hs hkon hkoff hDf hR

theorem fullModel_kon_is_derivative_witness :
    (0 : ℝ) < (1 : ℂ).re ∧ (0 : ℝ) < 1 ∧
      HasDerivAt (fun k : ℝ => fullModel 1 k 1 1 1) (fullModel_kon 1 1 1 1 1) 1 :=
  ⟨by simp, one_pos,
    fullModel_kon_is_derivative 1 1 1 1 1 (by simp) one_pos one_pos one_pos one_pos⟩

/-- Claim C2: for every complex `s` with positive real part and all positive reals
`kon`, `koff`, `Df`, `R`, the map `k ↦ fullModel(s, kon, k, Df, R)` is differentiable at
`k = koff` and its derivative there is `fullModel_koff(s, kon, koff, Df, R)`. -/
theorem fullModel_koff_is_derivative (s : ℂ) (kon koff Df R : ℝ)
    (hs : 0 < s.re) (hkon : 0 < kon) (hkoff : 0 < koff) (hDf : 0 < Df) (hR : 0 < R) :
    HasDerivAt (fun k : ℝ => fullModel s kon k Df R)
      (fullModel_koff s kon koff Df R) koff :=
  hasDerivAt_fullModel_koff s kon koff Df R hs hkon hkoff hDf hR

theorem fullModel_koff_is_derivative_witness :
    (0 : ℝ) < (1 : ℂ).re ∧ (0 : ℝ) < 1 ∧
      HasDerivAt (fun k : ℝ => fullModel 1 1 k 1 1) (fullModel_koff 1 1 1 1 1) 1 :=
  ⟨by simp, one_pos,
    fullModel_koff_is_derivative 1 1 1 1 1 (by simp) one_pos one_pos one_pos one_pos⟩

/-- Claim C3 fails as stated: at `t = 100*pi`, `kon = koff = Df = 1`, `R = 300`, regime
`reactionDominantPure` and selector `0`, the value `invlap` returns is not the value the
statement describes (which multiplies every sample by `exp(s*t)` and the sum once more by
`exp(sigma*t)`). -/
theorem invlap_ne_as_specified_example :
    invlap (100 * Real.pi) 1 1 1 300 "reactionDominantPure" 0
      ≠ some (invlap_as_specified reactionDominantPure (100 * Real.pi) 1 1 1 300) := by
  have hF : laplace_fun "reactionDominantPure" 0 = some reactionDominantPure := by
    simp [laplace_fun]
  rw [invlap_eq_of_laplace_fun hF, invlap_as_specified_eq]
  intro h
  have h2 := Option.some.inj h
  have hq := invlap_quadrature_pos_example
  have he : 1 < Real.exp (0.05 * (100 * Real.pi)) := by
    rw [Real.one_lt_exp_iff]
    have := Real.pi_pos
    positivity
  nlinarith

/-- Claim C3, amended: for every time `t`, every parameter set and every (regime, selector)
pair that selects a transfer function `F`, `invlap` returns
`real(sum * exp(sigma*t) / pi)` with `sigma = 0.05`, `delta = 200/10000`,
`s_k = sigma + k*delta*j`, `f_k = Re(exp(j*k*delta*t) * F(s_k))` (the oscillating factor
only; the factor `exp(sigma*t)` enters once, at the end) and `sum` the sum over
`i = 0 .. 9999` of `0.5*delta*(f_i + f_{i+1})`. -/
theorem invlap_formula (t kon koff Df R : ℝ) (m : String) (functionOrDerivative : Int)
    (F : LaplaceImage) (hF : laplace_fun m functionOrDerivative = some F) :
    invlap t kon koff Df R m functionOrDerivative
      = some ((((∑ i in Finset.range 10000, 0.5 * (200 / 10000) *
          ((Complex.exp (((i * (200 / 10000) * t : ℝ) : ℂ) * Complex.I) *
              F (((0.05 : ℝ) : ℂ) + ((i * (200 / 10000) : ℝ) : ℂ) * Complex.I)
                kon koff Df R).re +
            (Complex.exp ((((i + 1 : ℕ) * (200 / 10000) * t : ℝ) : ℂ) * Complex.I) *
              F (((0.05 : ℝ) : ℂ) + (((i + 1 : ℕ) * (200 / 10000) : ℝ) : ℂ) * Complex.I)
                kon koff Df R).re) : ℝ) : ℂ) *
          Complex.exp (((0.05 * t : ℝ) : ℂ)) / ((Real.pi : ℝ) : ℂ)).re) := by
  rw [invlap_eq_of_laplace_fun hF, invlap_quadrature_eq]
  rw [← Complex.ofReal_exp, ← Complex.ofReal_mul, ← Complex.ofReal_div, Complex.ofReal_re]
  simp only [invlap_sample, cexp, zero_add]

theorem invlap_formula_witness :
    laplace_fun "fullModel" 0 = some fullModel ∧
    invlap 1 1 1 1 1 "fullModel" 0
      = some ((((∑ i in Finset.range 10000, 0.5 * (200 / 10000) *
          ((Complex.exp (((i * (200 / 10000) * 1 : ℝ) : ℂ) * Complex.I) *
              fullModel (((0.05 : ℝ) : ℂ) + ((i * (200 / 10000) : ℝ) : ℂ) * Complex.I)
                1 1 1 1).re +
            (Complex.exp ((((i + 1 : ℕ) * (200 / 10000) * 1 : ℝ) : ℂ) * Complex.I) *
              fullModel
                (((0.05 : ℝ) : ℂ) + (((i + 1 : ℕ) * (200 / 10000) : ℝ) : ℂ) * Complex.I)
                1 1 1 1).re) : ℝ) : ℂ) *
          Complex.exp (((0.05 * 1 : ℝ) : ℂ)) / ((Real.pi : ℝ) : ℂ)).re) :=
  ⟨by simp [laplace_fun], invlap_formula 1 1 1 1 1 "fullModel" 0 fullModel
    (by simp [laplace_fun])⟩

/-- Claim C4: for a data context whose regime name selects a Laplace image, `model_f`
returns `GSL_SUCCESS`, leaves `f[i] = (invlap(time[i], kon, koff, Df, R, m, 0) - y[i]) /
sigma[i]` at every index `i < n`, and leaves every other entry of `f` as it was. -/
theorem model_f_writes_residuals (x : ℕ → ℝ) (d : data) (f : ℕ → ℝ) (F : LaplaceImage)
    (hF : laplace_fun d.m 0 = some F) :
    ∃ f' : ℕ → ℝ, model_f x d f = some (GSL_SUCCESS, f') ∧
      (∀ i, i < d.n → ∃ Yi : ℝ,
        invlap (d.time i) (x 0) (x 1) d.Df d.R d.m 0 = some Yi ∧
        f' i = (Yi - d.y i) / d.sigma i) ∧
      (∀ i, d.n ≤ i → f' i = f i) := by
  refine ⟨fun i => if i < d.n then
      (invlap_quadrature F (d.time i) (x 0) (x 1) d.Df d.R - d.y i) / d.sigma i
    else f i, ?_, ?_, ?_⟩
  · simp only [model_f, gsl_vector_get, model_f_loop_eq d (x 0) (x 1) f F hF]
  · intro i hi
    exact ⟨_, invlap_eq_of_laplace_fun hF _ _ _ _ _, by simp [hi]⟩
  · intro i hi
    have : ¬ i < d.n := by omega
    simp [this]

theorem model_f_writes_residuals_witness :
    laplace_fun sample_data.m 0
        = some fullModel ∧
    ∃ f' : ℕ → ℝ,
      model_f (x_init 1 1) sample_data
        (fun _ => 0) = some (GSL_SUCCESS, f') ∧
      (∀ i, i < sample_data.n →
        ∃ Yi : ℝ,
          invlap (sample_data.time i)
            (x_init 1 1 0) (x_init 1 1 1)
            sample_data.Df
            sample_data.R
            sample_data.m 0 = some Yi ∧
          f' i = (Yi -
            sample_data.y i) /
            sample_data.sigma i) ∧
      (∀ i, sample_data.n ≤ i →
        f' i = (fun _ => (0 : ℝ)) i) :=
  ⟨by simp [laplace_fun, sample_data],
    model_f_writes_residuals (x_init 1 1)
      sample_data (fun _ => 0)
      fullModel (by simp [laplace_fun, sample_data])⟩

/-- Claim C5: for a data context whose regime name selects both derivative images,
`model_df` returns `GSL_SUCCESS` and leaves, at every row `i < n`,
`J[i][0] = invlap(time[i], kon, koff, Df, R, m, 1) / sigma[i]` and
`J[i][1] = invlap(time[i], kon, koff, Df, R, m, 2) / sigma[i]`; every other entry of `J`
is left as it was. -/
theorem model_df_writes_jacobian (x : ℕ → ℝ) (d : data) (J : ℕ → ℕ → ℝ)
    (F1 F2 : LaplaceImage)
    (hF1 : laplace_fun d.m 1 = some F1) (hF2 : laplace_fun d.m 2 = some F2) :
    ∃ J' : ℕ → ℕ → ℝ, model_df x d J = some (GSL_SUCCESS, J') ∧
      (∀ i, i < d.n → ∃ Y1 Y2 : ℝ,
        invlap (d.time i) (x 0) (x 1) d.Df d.R d.m 1 = some Y1 ∧
        invlap (d.time i) (x 0) (x 1) d.Df d.R d.m 2 = some Y2 ∧
        J' i 0 = Y1 / d.sigma i ∧ J' i 1 = Y2 / d.sigma i) ∧
      (∀ i j, (d.n ≤ i ∨ 2 ≤ j) → J' i j = J i j) := by
  refine ⟨fun i j => if i < d.n ∧ j = 0 then
      invlap_quadrature F1 (d.time i) (x 0) (x 1) d.Df d.R / d.sigma i
    else if i < d.n ∧ j = 1 then
      invlap_quadrature F2 (d.time i) (x 0) (x 1) d.Df d.R / d.sigma i
    else J i j, ?_, ?_, ?_⟩
  · simp only [model_df, gsl_vector_get, model_df_loop_eq d (x 0) (x 1) J F1 F2 hF1 hF2]
  · intro i hi
    exact ⟨_, _, invlap_eq_of_laplace_fun hF1 _ _ _ _ _,
      invlap_eq_of_laplace_fun hF2 _ _ _ _ _, by simp [hi], by simp [hi]⟩
  · intro i j hij
    have h0 : ¬ (i < d.n ∧ j = 0) := by omega
    have h1 : ¬ (i < d.n ∧ j = 1) := by omega
    simp only [h0, h1, if_false]

theorem model_df_writes_jacobian_witness :
    laplace_fun sample_data.m 1
        = some fullModel_kon ∧
    laplace_fun sample_data.m 2
        = some fullModel_koff ∧
    ∃ J' : ℕ → ℕ → ℝ,
      model_df (x_init 1 1)
        sample_data
        (fun _ _ => 0) = some (GSL_SUCCESS, J') ∧
      (∀ i, i < sample_data.n →
        ∃ Y1 Y2 : ℝ,
          invlap (sample_data.time i)
            (x_init 1 1 0) (x_init 1 1 1)
            sample_data.Df
            sample_data.R
            sample_data.m 1 = some Y1 ∧
          invlap (sample_data.time i)
            (x_init 1 1 0) (x_init 1 1 1)
            sample_data.Df
            sample_data.R
            sample_data.m 2 = some Y2 ∧
          J' i 0 = Y1 /
            sample_data.sigma i ∧
          J' i 1 = Y2 /
            sample_data.sigma i) ∧
      (∀ i j,
        (sample_data.n ≤ i ∨ 2 ≤ j) →
        J' i j = (fun _ _ => (0 : ℝ)) i j) :=
  ⟨by simp [laplace_fun, sample_data], by simp [laplace_fun, sample_data],
    model_df_writes_jacobian (x_init 1 1)
      sample_data (fun _ _ => 0)
      fullModel_kon fullModel_koff (by simp [laplace_fun, sample_data]) (by simp [laplace_fun, sample_data])⟩

/-- Claim C6: for each of the three supported regimes, positive `kon`, `koff`, `Df`, `R`
and non-zero `sigma[i]`, the matrix written by `model_df` at `(kon, koff)` is the matrix of
partial derivatives of the residual vector written by `model_f`: `J[i][0]` is the derivative
of `f[i]` in `kon` and `J[i][1]` the derivative of `f[i]` in `koff`, for every `i < n`. -/
theorem model_df_is_jacobian_of_model_f (d : data) (kon koff : ℝ) (f0 : ℕ → ℝ)
    (J0 : ℕ → ℕ → ℝ)
    (hm : d.m = "fullModel" ∨ d.m = "hybridModel" ∨ d.m = "reactionDominantPure")
    (hkon : 0 < kon) (hkoff : 0 < koff) (hDf : 0 < d.Df) (hR : 0 < d.R)
    (hsigma : ∀ i, i < d.n → d.sigma i ≠ 0) :
    ∃ (r : ℝ → ℝ → ℕ → ℝ) (J : ℕ → ℕ → ℝ),
      (∀ a b, model_f (x_init a b) d f0 = some (GSL_SUCCESS, r a b)) ∧
      model_df (x_init kon koff) d J0 = some (GSL_SUCCESS, J) ∧
      ∀ i, i < d.n →
        HasDerivAt (fun a => r a koff i) (J i 0) kon ∧
        HasDerivAt (fun b => r kon b i) (J i 1) koff := by
  rcases hm with hm | hm | hm
  · exact jacobian_of_images d kon koff f0 J0 fullModel fullModel_kon fullModel_koff
      (by simp [laplace_fun, hm]) (by simp [laplace_fun, hm]) (by simp [laplace_fun, hm])
      (fun s hs => hasDerivAt_fullModel_kon s kon koff d.Df d.R hs hkon hkoff hDf hR)
      (fun s hs => hasDerivAt_fullModel_koff s kon koff d.Df d.R hs hkon hkoff hDf hR)
  · exact jacobian_of_images d kon koff f0 J0 hybridModel hybridModel_kon hybridModel_koff
      (by simp [laplace_fun, hm]) (by simp [laplace_fun, hm]) (by simp [laplace_fun, hm])
      (fun s hs => hasDerivAt_hybridModel_kon s kon koff d.Df d.R hs hkon hkoff hDf hR)
      (fun s hs => hasDerivAt_hybridModel_koff s kon koff d.Df d.R hs hkon hkoff hDf hR)
  · exact jacobian_of_images d kon koff f0 J0 reactionDominantPure reactionDominantPure_kon
      reactionDominantPure_koff
      (by simp [laplace_fun, hm]) (by simp [laplace_fun, hm]) (by simp [laplace_fun, hm])
      (fun s hs =>
        hasDerivAt_reactionDominantPure_kon s kon koff d.Df d.R hs hkon hkoff hDf hR)
      (fun s hs =>
        hasDerivAt_reactionDominantPure_koff s kon koff d.Df d.R hs hkon hkoff hDf hR)

theorem model_df_is_jacobian_of_model_f_witness :
    (sample_data.m = "fullModel" ∨ sample_data.m = "hybridModel" ∨
      sample_data.m = "reactionDominantPure") ∧
    (∀ i, i < sample_data.n → sample_data.sigma i ≠ 0) ∧
    ∃ (r : ℝ → ℝ → ℕ → ℝ) (J : ℕ → ℕ → ℝ),
      (∀ a b, model_f (x_init a b) sample_data (fun _ => 0) = some (GSL_SUCCESS, r a b)) ∧
      model_df (x_init 1 1) sample_data (fun _ _ => 0) = some (GSL_SUCCESS, J) ∧
      ∀ i, i < sample_data.n →
        HasDerivAt (fun a => r a 1 i) (J i 0) 1 ∧
        HasDerivAt (fun b => r 1 b i) (J i 1) 1 :=
  ⟨Or.inl rfl, by intro i _; simp [sample_data],
    model_df_is_jacobian_of_model_f sample_data 1 1 (fun _ => 0) (fun _ _ => 0)
      (Or.inl rfl) one_pos one_pos (by simp [sample_data]) (by simp [sample_data])
      (by intro i _; simp [sample_data])⟩

/-- Claim C7: for every complex `s` with positive real part and all positive reals
`kon`, `koff`, `Df`, `R`, the map `k ↦ hybridModel(s, k, koff, Df, R)` is differentiable at
`k = kon` and its derivative there is `hybridModel_kon(s, kon, koff, Df, R)`. -/
theorem hybridModel_kon_is_derivative (s : ℂ) (kon koff Df R : ℝ)
    (hs : 0 < s.re) (hkon : 0 < kon) (hkoff : 0 < koff) (hDf : 0 < Df) (hR : 0 < R) :
    HasDerivAt (fun k : ℝ => hybridModel s k koff Df R)
      (hybridModel_kon s kon koff Df R) kon :=
  hasDerivAt_hybridModel_kon s kon koff Df R hs hkon hkoff hDf hR

theorem hybridModel_kon_is_derivative_witness :
    (0 : ℝ) < (1 : ℂ).re ∧ (0 : ℝ) < 1 ∧
      HasDerivAt (fun k : ℝ => hybridModel 1 k 1 1 1) (hybridModel_kon 1 1 1 1 1) 1 :=
  ⟨by simp, one_pos,
    hybridModel_kon_is_derivative 1 1 1 1 1 (by simp) one_pos one_pos one_pos one_pos⟩

/-- Claim C8: for every complex `s` with positive real part and all positive reals
`kon`, `koff`, `Df`, `R`, the map `k ↦ hybridModel(s, kon, k, Df, R)` is differentiable at
`k = koff` and its derivative there is `hybridModel_koff(s, kon, koff, Df, R)`. -/
theorem hybridModel_koff_is_derivative (s : ℂ) (kon koff Df R : ℝ)
    (hs : 0 < s.re) (hkon : 0 < kon) (hkoff : 0 < koff) (hDf : 0 < Df) (hR : 0 < R) :
    HasDerivAt (fun k : ℝ => hybridModel s kon k Df R)
      (hybridModel_koff s kon koff Df R) koff :=
  hasDerivAt_hybridModel_koff s kon koff Df R hs hkon hkoff hDf hR

theorem hybridModel_koff_is_derivative_witness :
    (0 : ℝ) < (1 : ℂ).re ∧ (0 : ℝ) < 1 ∧
      HasDerivAt (fun k : ℝ => hybridModel 1 1 k 1 1) (hybridModel_koff 1 1 1 1 1) 1 :=
  ⟨by simp, one_pos,
    hybridModel_koff_is_derivative 1 1 1 1 1 (by simp) one_pos one_pos one_pos one_pos⟩

/-- Claim C9: for every complex `s` with positive real part and all positive reals
`kon`, `koff`, `Df`, `R`, the map `k ↦ reactionDominantPure(s, k, koff, Df, R)` is differentiable at
`k = kon` and its derivative there is `reactionDominantPure_kon(s, kon, koff, Df, R)`. -/
theorem reactionDominantPure_kon_is_derivative (s : ℂ) (kon koff Df R : ℝ)
    (hs : 0 < s.re) (hkon : 0 < kon) (hkoff : 0 < koff) (hDf : 0 < Df) (hR : 0 < R) :
    HasDerivAt (fun k : ℝ => reactionDominantPure s k koff Df R)
      (reactionDominantPure_kon s kon koff Df R) kon :=
  hasDerivAt_reactionDominantPure_kon s kon koff Df R hs hkon hkoff hDf hR

theorem reactionDominantPure_kon_is_derivative_witness :
    (0 : ℝ) < (1 : ℂ).re ∧ (0 : ℝ) < 1 ∧
      HasDerivAt (fun k : ℝ => reactionDominantPure 1 k 1 1 1) (reactionDominantPure_kon 1 1 1 1 1) 1 :=
  ⟨by simp, one_pos,
    reactionDominantPure_kon_is_derivative 1 1 1 1 1 (by simp) one_pos one_pos one_pos one_pos⟩

/-- Claim C10: for every complex `s` with positive real part and all positive reals
`kon`, `koff`, `Df`, `R`, the map `k ↦ reactionDominantPure(s, kon, k, Df, R)` is differentiable at
`k = koff` and its derivative there is `reactionDominantPure_koff(s, kon, koff, Df, R)`. -/
theorem reactionDominantPure_koff_is_derivative (s : ℂ) (kon koff Df R : ℝ)
    (hs : 0 < s.re) (hkon : 0 < kon) (hkoff : 0 < koff) (hDf : 0 < Df) (hR : 0 < R) :
    HasDerivAt (fun k : ℝ => reactionDominantPure s kon k Df R)
      (reactionDominantPure_koff s kon koff Df R) koff :=
  hasDerivAt_reactionDominantPure_koff s kon koff Df R hs hkon hkoff hDf hR

theorem reactionDominantPure_koff_is_derivative_witness :
    (0 : ℝ) < (1 : ℂ).re ∧ (0 : ℝ) < 1 ∧
      HasDerivAt (fun k : ℝ => reactionDominantPure 1 1 k 1 1) (reactionDominantPure_koff 1 1 1 1 1) 1 :=
  ⟨by simp, one_pos,
    reactionDominantPure_koff_is_derivative 1 1 1 1 1 (by simp) one_pos one_pos one_pos one_pos⟩

/-! ## Selection of the transfer function and well-definedness at the nodes -/

/-- The arguments of the square roots have positive real part for `Re s > 0`. -/
theorem rdpArg_re_pos {s : ℂ} {Df R : ℝ} (hs : 0 < s.re) (hDf : 0 < Df) (hR : 0 < R) :
    0 < (((R * R : ℝ) : ℂ) * s / (Df : ℂ)).re := by
  have e : ((R * R : ℝ) : ℂ) * s / (Df : ℂ) = ((R * R / Df : ℝ) : ℂ) * s := by
    push_cast
    ring
  rw [e, Complex.re_ofReal_mul]
  positivity

theorem hybridArg_eq (s : ℂ) (kon koff Df R : ℝ) :
    ((R * R * kon : ℝ) : ℂ) * s / (Df : ℂ) / (s + (koff : ℂ))
      = ((R * R : ℝ) : ℂ) * s / (Df : ℂ) * (kon : ℂ) / (s + (koff : ℂ)) := by
  push_cast
  ring

/-- Claim C11: for each of the regime names `fullModel`, `hybridModel`,
`reactionDominantPure`, `invlap` integrates the regime's value function for selector `0`,
its `_kon` function for selector `1` and its `_koff` function for selector `2`; in every
pass of the loop the selected function is called at `sigma + wi*I` and `sigma + wf*I` with
the caller's `kon`, `koff`, `Df`, `R`. -/
theorem invlap_integrates_selected_image (t kon koff Df R : ℝ) :
    invlap t kon koff Df R "fullModel" 0
        = some (invlap_quadrature fullModel t kon koff Df R) ∧
    invlap t kon koff Df R "fullModel" 1
        = some (invlap_quadrature fullModel_kon t kon koff Df R) ∧
    invlap t kon koff Df R "fullModel" 2
        = some (invlap_quadrature fullModel_koff t kon koff Df R) ∧
    invlap t kon koff Df R "hybridModel" 0
        = some (invlap_quadrature hybridModel t kon koff Df R) ∧
    invlap t kon koff Df R "hybridModel" 1
        = some (invlap_quadrature hybridModel_kon t kon koff Df R) ∧
    invlap t kon koff Df R "hybridModel" 2
        = some (invlap_quadrature hybridModel_koff t kon koff Df R) ∧
    invlap t kon koff Df R "reactionDominantPure" 0
        = some (invlap_quadrature reactionDominantPure t kon koff Df R) ∧
    invlap t kon koff Df R "reactionDominantPure" 1
        = some (invlap_quadrature reactionDominantPure_kon t kon koff Df R) ∧
    invlap t kon koff Df R "reactionDominantPure" 2
        = some (invlap_quadrature reactionDominantPure_koff t kon koff Df R) ∧
    ∀ (F : LaplaceImage) (sigma delta sum wi : ℝ),
      invlap_body F t kon koff Df R sigma delta (sum, wi)
        = (sum + 0.5 * ((wi + delta) - wi) *
            ((cexp (0 + ((wi * t : ℝ) : ℂ) * Complex.I) *
                F ((sigma : ℂ) + (wi : ℂ) * Complex.I) kon koff Df R).re +
              (cexp (0 + (((wi + delta) * t : ℝ) : ℂ) * Complex.I) *
                F ((sigma : ℂ) + ((wi + delta : ℝ) : ℂ) * Complex.I) kon koff Df R).re),
          wi + delta) := by
  refine ⟨?_, ?_, ?_, ?_, ?_, ?_, ?_, ?_, ?_, ?_⟩
  · exact invlap_eq_of_laplace_fun (by simp [laplace_fun]) _ _ _ _ _
  · exact invlap_eq_of_laplace_fun (by simp [laplace_fun]) _ _ _ _ _
  · exact invlap_eq_of_laplace_fun (by simp [laplace_fun]) _ _ _ _ _
  · exact invlap_eq_of_laplace_fun (by simp [laplace_fun]) _ _ _ _ _
  · exact invlap_eq_of_laplace_fun (by simp [laplace_fun]) _ _ _ _ _
  · exact invlap_eq_of_laplace_fun (by simp [laplace_fun]) _ _ _ _ _
  · exact invlap_eq_of_laplace_fun (by simp [laplace_fun]) _ _ _ _ _
  · exact invlap_eq_of_laplace_fun (by simp [laplace_fun]) _ _ _ _ _
  · exact invlap_eq_of_laplace_fun (by simp [laplace_fun]) _ _ _ _ _
  · intro F sigma delta sum wi
    rfl

/-- Claim C12 fails on the code: for the selector `3` with the regime `fullModel` the
selection prints one line to `stderr` and leaves the pointer unassigned, and for the
unknown name `noSuchModel` it prints nothing and leaves the pointer unassigned; in both
cases `invlap` goes on to the loop, where the call through the unassigned pointer has no
defined value: no error comes back to the caller. -/
theorem invlap_unrecognised_pair_example :
    laplace_fun "fullModel" 3 = none ∧
    invlap_stderr "fullModel" 3 =
      ["ERROR: invlap takes only values 0, 1 or 2 for the model and derivatives, respectively."] ∧
    invlap 1 0.5 0.5 11 3 "fullModel" 3 = none ∧
    laplace_fun "noSuchModel" 0 = none ∧
    invlap_stderr "noSuchModel" 0 = [] ∧
    invlap 1 0.5 0.5 11 3 "noSuchModel" 0 = none := by
  refine ⟨?_, ?_, ?_, ?_, ?_, ?_⟩
  · simp [laplace_fun]
  · simp [invlap_stderr]
  · simp [invlap, laplace_fun]
  · simp [laplace_fun]
  · simp [invlap_stderr]
  · simp [invlap, laplace_fun]

/-- Claim C13: at every quadrature node `s = 0.05 + w*j` with `w >= 0` and for all positive
`kon`, `koff`, `Df`, `R`, in each of the nine supported transfer functions every divisor
is non-zero and every argument of `csqrt` or of `cpow(., 3.0/2.0)` lies off the closed
negative real axis. -/
theorem images_well_defined_at_nodes (f : image_name) (w kon koff Df R : ℝ) (_hw : 0 ≤ w)
    (hkon : 0 < kon) (hkoff : 0 < koff) (hDf : 0 < Df) (hR : 0 < R) :
    (∀ d ∈ image_name.divisors (((0.05 : ℝ) : ℂ) + (w : ℂ) * Complex.I) kon koff Df R f,
      d ≠ 0) ∧
    (∀ a ∈ image_name.root_arguments (((0.05 : ℝ) : ℂ) + (w : ℂ) * Complex.I) kon koff Df R f,
      a ∈ Complex.slitPlane) := by
  have hs : 0 < (((0.05 : ℝ) : ℂ) + (w : ℂ) * Complex.I).re := by
    simp
    norm_num
  generalize ((0.05 : ℝ) : ℂ) + (w : ℂ) * Complex.I = s at hs ⊢
  have hs0 : s ≠ 0 := ne_zero_of_re_pos hs
  have hsk : s + (koff : ℂ) ≠ 0 := add_ofReal_ne_zero hs hkoff.le
  have hkon0 : (kon : ℂ) ≠ 0 := by exact_mod_cast hkon.ne'
  have hkoff0 : (koff : ℂ) ≠ 0 := by exact_mod_cast hkoff.ne'
  have hDf0 : (Df : ℂ) ≠ 0 := by exact_mod_cast hDf.ne'
  have hK : ((kon + koff : ℝ) : ℂ) ≠ 0 := by
    have : (0 : ℝ) < kon + koff := by linarith
    exact_mod_cast this.ne'
  have h1 : ((1 + kon / koff : ℝ) : ℂ) ≠ 0 := by
    have : (0 : ℝ) < 1 + kon / koff := by positivity
    exact_mod_cast this.ne'
  have h2 : ((2 : ℝ) : ℂ) ≠ 0 := by norm_num
  have h4 : (4 : ℂ) ≠ 0 := by norm_num
  have hfull := fullArg_re_pos (s := s) hs hkon.le hkoff.le hDf hR
  have hrdp := rdpArg_re_pos (s := s) hs hDf hR
  have hhyb := hybridArg_re_pos (s := s) hs hkon hkoff.le hDf hR
  have hhyb2 := hhyb
  rw [← hybridArg_eq] at hhyb2
  have qfull := csqrt_ne_zero (ne_zero_of_re_pos hfull)
  have qrdp := csqrt_ne_zero (ne_zero_of_re_pos hrdp)
  have qhyb2 := csqrt_ne_zero (ne_zero_of_re_pos hhyb2)
  have phyb : cpow (((R * R : ℝ) : ℂ) * s / (Df : ℂ) * (kon : ℂ) / (s + (koff : ℂ)))
      (((3 / 2 : ℝ) : ℂ)) ≠ 0 := by
    rw [cpow_three_halves]
    exact pow_ne_zero 3 (csqrt_ne_zero (ne_zero_of_re_pos hhyb))
  have pK : cpow ((kon + koff : ℝ) : ℂ) 2 ≠ 0 := by
    rw [cpow_two]
    exact pow_ne_zero 2 hK
  have psk : cpow (s + (koff : ℂ)) 3 ≠ 0 := by
    rw [cpow_three]
    exact pow_ne_zero 3 hsk
  have sfull := mem_slitPlane_of_re_pos hfull
  have srdp := mem_slitPlane_of_re_pos hrdp
  have shyb := mem_slitPlane_of_re_pos hhyb
  have shyb2 := mem_slitPlane_of_re_pos hhyb2
  cases f <;>
    simp only [image_name.divisors, image_name.root_arguments, List.mem_cons,
      List.mem_singleton, List.not_mem_nil, or_false, forall_eq_or_imp, forall_eq,
      ne_eq, mul_eq_zero, not_or] <;>
    (repeat' apply And.intro) <;>
    assumption

theorem images_well_defined_at_nodes_witness :
    (0 : ℝ) ≤ 0 ∧ (0 : ℝ) < 1 ∧
    (∀ d ∈ image_name.divisors (((0.05 : ℝ) : ℂ) + ((0 : ℝ) : ℂ) * Complex.I) 1 1 1 1
        image_name.hybridModel_koff, d ≠ 0) ∧
    (∀ a ∈ image_name.root_arguments (((0.05 : ℝ) : ℂ) + ((0 : ℝ) : ℂ) * Complex.I) 1 1 1 1
        image_name.hybridModel_koff, a ∈ Complex.slitPlane) :=
  ⟨le_refl 0, one_pos,
    images_well_defined_at_nodes image_name.hybridModel_koff 0 1 1 1 1 (le_refl 0) one_pos
      one_pos one_pos one_pos⟩

/-! ## The fitting loop -/

theorem solver_steps_append (l1 l2 : List fit_call) :
    solver_steps (l1 ++ l2) = solver_steps l1 + solver_steps l2 := by
  induction l1 with
  | nil => simp [solver_steps]
  | cons c l ih =>
    cases c
    · show solver_steps (l ++ l2) + 1 = solver_steps l + 1 + solver_steps l2
      omega
    · exact ih

/-- What one run of the loop from the counter `iter` adds: the counter grows by the number
of solver steps, at least one step is made, the first call is `iterate (iter + 1)`, and
the counter stays within `500` unless the run started beyond. -/
theorem fit_loop_run (iterate test_delta : ℕ → Int) (iter : ℕ) (calls : List fit_call) :
    solver_steps (fit_loop iterate test_delta iter calls).calls
        = solver_steps calls + ((fit_loop iterate test_delta iter calls).iter - iter) ∧
    iter + 1 ≤ (fit_loop iterate test_delta iter calls).iter ∧
    ((fit_loop iterate test_delta iter calls).iter ≤ 500 ∨
      (fit_loop iterate test_delta iter calls).iter = iter + 1) ∧
    ∃ l, (fit_loop iterate test_delta iter calls).calls
      = calls ++ fit_call.iterate (iter + 1) :: l := by
  induction iter, calls using fit_loop.induct iterate test_delta with
  | case1 iter calls h =>
    have hfl : fit_loop iterate test_delta iter calls
        = { iter := iter + 1, status := iterate (iter + 1),
            calls := calls ++ [fit_call.iterate (iter + 1)] } := by
      rw [fit_loop]
      simp only [h, if_true, ne_eq, not_false_eq_true]
    rw [hfl]
    refine ⟨?_, le_refl _, Or.inr rfl, ⟨[], rfl⟩⟩
    simp [solver_steps_append, solver_steps]
  | case2 iter calls h hc ih =>
    have hfl : fit_loop iterate test_delta iter calls
        = fit_loop iterate test_delta (iter + 1)
            (calls ++ [fit_call.iterate (iter + 1)] ++ [fit_call.test_delta (iter + 1)]) := by
      conv_lhs => rw [fit_loop]
      simp only [h, hc, if_true, if_false, and_self]
    rw [hfl]
    obtain ⟨h1, h2, h3, l, h4⟩ := ih
    refine ⟨?_, by omega, ?_,
      ⟨fit_call.test_delta (iter + 1) :: fit_call.iterate (iter + 1 + 1) :: l, ?_⟩⟩
    · rw [h1]
      simp only [solver_steps_append, solver_steps]
      omega
    · rcases h3 with h3 | h3
      · exact Or.inl h3
      · left
        omega
    · rw [h4]
      simp
  | case3 iter calls h hc =>
    have hfl : fit_loop iterate test_delta iter calls
        = { iter := iter + 1, status := test_delta (iter + 1),
            calls := calls ++ [fit_call.iterate (iter + 1)] ++
              [fit_call.test_delta (iter + 1)] } := by
      rw [fit_loop]
      simp only [h, hc, if_false]
    rw [hfl]
    refine ⟨?_, le_refl _, Or.inr rfl, ⟨[fit_call.test_delta (iter + 1)], by simp⟩⟩
    simp [solver_steps_append, solver_steps]

/-- As long as every solver step succeeds and every convergence test says `GSL_CONTINUE`,
the loop of `main` is the loop restarted after `k` complete passes. -/
theorem main_fit_after_passes (iterate test_delta : ℕ → Int) (k : ℕ) (hk : k < 500)
    (h : ∀ j, 1 ≤ j → j ≤ k → iterate j = 0 ∧ test_delta j = GSL_CONTINUE) :
    main_fit iterate test_delta = fit_loop iterate test_delta k (complete_passes k) := by
  induction k with
  | zero => rfl
  | succ k ih =>
    rw [ih (by omega) (fun j h1 h2 => h j h1 (by omega))]
    obtain ⟨hi, ht⟩ := h (k + 1) (by omega) (le_refl _)
    rw [fit_loop]
    simp [hi, ht, hk, complete_passes]

theorem not_mem_complete_passes (k j : ℕ) (hj : k < j) :
    fit_call.iterate j ∉ complete_passes k := by
  induction k with
  | zero => simp [complete_passes]
  | succ k ih =>
    simp only [complete_passes, List.mem_append, List.mem_cons, List.mem_singleton,
      fit_call.iterate.injEq, List.not_mem_nil, or_false, not_or]
    exact ⟨ih (by omega), by omega, by simp⟩

/-- Claim C14: whatever statuses the solver step and the convergence test return, the
fitting loop of `main` ends after at least one and at most 500 calls of the solver
step. -/
theorem main_fit_solver_steps (iterate test_delta : ℕ → Int) :
    1 ≤ solver_steps (main_fit iterate test_delta).calls ∧
    solver_steps (main_fit iterate test_delta).calls ≤ 500 := by
  obtain ⟨h1, h2, h3, -⟩ := fit_loop_run iterate test_delta 0 []
  unfold main_fit
  rw [h1]
  simp only [solver_steps]
  omega

/-- Claim C15: let the loop reach pass `k` (every earlier solver step returned `0` and
every earlier test `GSL_CONTINUE`, `1 <= k <= 500`).  If the solver step of pass `k`
returns a non-zero status, the loop ends there: the calls made are the `k - 1` complete
passes followed by `iterate k` alone (no test of pass `k`, no later step) and the final
`status` is that status.  If it returns `0`, the step of pass `k + 1` is made if and only
if the test of pass `k` returns `GSL_CONTINUE` and `k < 500`; otherwise the loop ends with
the status of that test. -/
theorem main_fit_pass (iterate test_delta : ℕ → Int) (k : ℕ) (hk1 : 1 ≤ k) (hk : k ≤ 500)
    (h : ∀ j, 1 ≤ j → j < k → iterate j = 0 ∧ test_delta j = GSL_CONTINUE) :
    (iterate k ≠ 0 →
      (main_fit iterate test_delta).iter = k ∧
      (main_fit iterate test_delta).status = iterate k ∧
      (main_fit iterate test_delta).calls
        = complete_passes (k - 1) ++ [fit_call.iterate k]) ∧
    (iterate k = 0 →
      (fit_call.iterate (k + 1) ∈ (main_fit iterate test_delta).calls
        ↔ test_delta k = GSL_CONTINUE ∧ k < 500) ∧
      (¬ (test_delta k = GSL_CONTINUE ∧ k < 500) →
        (main_fit iterate test_delta).iter = k ∧
        (main_fit iterate test_delta).status = test_delta k ∧
        (main_fit iterate test_delta).calls = complete_passes k)) := by
  obtain ⟨k, rfl⟩ : ∃ k', k = k' + 1 := ⟨k - 1, by omega⟩
  have hrun := main_fit_after_passes iterate test_delta k (by omega)
    (fun j h1 h2 => h j h1 (by omega))
  simp only [Nat.add_sub_cancel]
  constructor
  · intro hne
    rw [hrun, fit_loop]
    simp [hne]
  · intro h0
    by_cases hc : test_delta (k + 1) = GSL_CONTINUE ∧ k + 1 < 500
    · have hrun2 := main_fit_after_passes iterate test_delta (k + 1) hc.2 (by
        intro j h1 h2
        by_cases hj : j = k + 1
        · subst hj
          exact ⟨h0, hc.1⟩
        · exact h j h1 (by omega))
      obtain ⟨-, -, -, l, hl⟩ := fit_loop_run iterate test_delta (k + 1) (complete_passes (k + 1))
      refine ⟨?_, fun hn => absurd hc hn⟩
      simp only [hc, and_self, iff_true]
      rw [hrun2, hl]
      simp
    · have hfin : main_fit iterate test_delta
          = { iter := k + 1, status := test_delta (k + 1),
              calls := complete_passes (k + 1) } := by
        rw [hrun, fit_loop]
        simp [h0, hc, complete_passes]
      refine ⟨?_, fun _ => ?_⟩
      · simp only [hc, iff_false]
        rw [hfin]
        exact not_mem_complete_passes (k + 1) (k + 1 + 1) (by omega)
      · rw [hfin]
        exact ⟨rfl, rfl, rfl⟩

theorem main_fit_pass_witness :
    (1 ≤ 1) ∧ (1 ≤ 500) ∧
    (∀ j, 1 ≤ j → j < 1 →
      (fun _ : ℕ => (1 : Int)) j = 0 ∧ (fun _ : ℕ => (0 : Int)) j = GSL_CONTINUE) ∧
    ((fun _ : ℕ => (1 : Int)) 1 ≠ 0 →
      (main_fit (fun _ => 1) (fun _ => 0)).iter = 1 ∧
      (main_fit (fun _ => 1) (fun _ => 0)).status = (fun _ : ℕ => (1 : Int)) 1 ∧
      (main_fit (fun _ => 1) (fun _ => 0)).calls
        = complete_passes (1 - 1) ++ [fit_call.iterate 1]) ∧
    ((fun _ : ℕ => (1 : Int)) 1 = 0 →
      (fit_call.iterate (1 + 1) ∈ (main_fit (fun _ => 1) (fun _ => 0)).calls
        ↔ (fun _ : ℕ => (0 : Int)) 1 = GSL_CONTINUE ∧ 1 < 500) ∧
      (¬ ((fun _ : ℕ => (0 : Int)) 1 = GSL_CONTINUE ∧ 1 < 500) →
        (main_fit (fun _ => 1) (fun _ => 0)).iter = 1 ∧
        (main_fit (fun _ => 1) (fun _ => 0)).status = (fun _ : ℕ => (0 : Int)) 1 ∧
        (main_fit (fun _ => 1) (fun _ => 0)).calls = complete_passes 1)) :=
  ⟨le_refl 1, by decide, fun j h1 h2 => absurd h1 (by omega),
    main_fit_pass (fun _ => 1) (fun _ => 0) 1 (le_refl 1) (by decide)
      (fun j h1 h2 => absurd h1 (by omega))⟩

/-! ## The error of the bound fraction and the sample times -/

theorem hasDerivAt_bound_kon (kon koff : ℝ) (hkon : 0 < kon) (hkoff : 0 < koff) :
    HasDerivAt (fun k => bound k koff) (100 / koff / (1 + kon / koff) ^ 2) kon := by
  have h1 : (1 : ℝ) + kon / koff ≠ 0 := by positivity
  have h := ((hasDerivAt_const kon (100 : ℝ)).div
    (((hasDerivAt_id kon).div_const koff).const_add 1) h1).const_sub 100
  unfold bound
  convert h using 1
  · funext k
    norm_num
  · simp only [id]
    field_simp

theorem hasDerivAt_bound_koff (kon koff : ℝ) (hkon : 0 < kon) (hkoff : 0 < koff) :
    HasDerivAt (fun k => bound kon k) (-(100 * kon) / koff ^ 2 / (1 + kon / koff) ^ 2)
      koff := by
  have h1 : (1 : ℝ) + kon / koff ≠ 0 := by positivity
  have h := ((hasDerivAt_const koff (100 : ℝ)).div
    (((hasDerivAt_const koff kon).div (hasDerivAt_id koff) hkoff.ne').const_add 1)
      h1).const_sub 100
  unfold bound
  convert h using 1
  · funext k
    norm_num
  · simp only [id]
    field_simp
    ring

/-- Claim C16 fails as stated: at `kon = koff = 1` with both parameter errors `1`
(`c = 1`, `ERR(0) = ERR(1) = 1`) the reported error is `0`, while the sum of the squared
terms is `25^2 + 25^2`. -/
theorem bound_error_not_quadrature_example :
    ¬ ∃ a b : ℝ, HasDerivAt (fun k => bound k 1) a 1 ∧ HasDerivAt (fun k => bound 1 k) b 1 ∧
      bound_error 1 1 1 1 1 ^ 2 = a ^ 2 * (1 * 1) ^ 2 + b ^ 2 * (1 * 1) ^ 2 := by
  rintro ⟨a, b, ha, hb, h⟩
  have ha2 := ha.unique (hasDerivAt_bound_kon 1 1 one_pos one_pos)
  have hb2 := hb.unique (hasDerivAt_bound_koff 1 1 one_pos one_pos)
  rw [ha2, hb2] at h
  norm_num [bound_error] at h

/-- Claim C16, amended: for converged `kon > 0`, `koff > 0` and parameter errors
`s_kon = c*ERR(0)`, `s_koff = c*ERR(1)`, the reported error is the signed first-order
sum `e = (dg/dkon)*s_kon + (dg/dkoff)*s_koff` of the bound fraction
`g(kon, koff) = 100 - 100/(1 + kon/koff)`, so that
`e^2 = (dg/dkon)^2*s_kon^2 + (dg/dkoff)^2*s_koff^2 + 2*(dg/dkon)*(dg/dkoff)*s_kon*s_koff`. -/
theorem bound_error_is_linear_propagation (kon koff c ERR0 ERR1 : ℝ)
    (hkon : 0 < kon) (hkoff : 0 < koff) :
    ∃ a b : ℝ, HasDerivAt (fun k => bound k koff) a kon ∧
      HasDerivAt (fun k => bound kon k) b koff ∧
      bound_error kon koff c ERR0 ERR1 = a * (c * ERR0) + b * (c * ERR1) ∧
      bound_error kon koff c ERR0 ERR1 ^ 2
        = a ^ 2 * (c * ERR0) ^ 2 + b ^ 2 * (c * ERR1) ^ 2 +
          2 * a * b * (c * ERR0) * (c * ERR1) := by
  have he : bound_error kon koff c ERR0 ERR1
      = 100 / koff / (1 + kon / koff) ^ 2 * (c * ERR0) +
        -(100 * kon) / koff ^ 2 / (1 + kon / koff) ^ 2 * (c * ERR1) := by
    have h1 : (1 : ℝ) + kon / koff ≠ 0 := by positivity
    unfold bound_error
    norm_num
    field_simp
    ring
  refine ⟨_, _, hasDerivAt_bound_kon kon koff hkon hkoff,
    hasDerivAt_bound_koff kon koff hkon hkoff, he, ?_⟩
  rw [he]
  ring

theorem bound_error_is_linear_propagation_witness :
    (0 : ℝ) < 1 ∧
    ∃ a b : ℝ, HasDerivAt (fun k => bound k 1) a 1 ∧
      HasDerivAt (fun k => bound 1 k) b 1 ∧
      bound_error 1 1 1 1 1 = a * (1 * 1) + b * (1 * 1) ∧
      bound_error 1 1 1 1 1 ^ 2
        = a ^ 2 * (1 * 1) ^ 2 + b ^ 2 * (1 * 1) ^ 2 + 2 * a * b * (1 * 1) * (1 * 1) :=
  ⟨one_pos, bound_error_is_linear_propagation 1 1 1 1 1 one_pos one_pos⟩

theorem fill_time_eq (t_ini stepSize : ℝ) (time : ℕ → ℝ) (k : ℕ) :
    fill_time t_ini stepSize time k
      = fun i => if i < k then t_ini + (i : ℝ) * stepSize else time i := by
  induction k with
  | zero => simp [fill_time]
  | succ k ih =>
    simp only [fill_time, ih]
    funext i
    by_cases h : i = k
    · subst h
      simp
    · rw [Function.update_noteq h]
      have h2 : i < k + 1 ↔ i < k := by omega
      simp only [h2]

/-- Claim C17: for `n >= 3` and `t_ini <= t_end` the times `main` builds are
`time[i] = t_ini + i*(t_end - t_ini)/(n - 1)` for `1 <= i < n`, in particular
`time[n-1] = t_end`, and `time[0]` is `0.01` when `t_ini = 0` and `t_ini` otherwise. -/
theorem main_time_evenly_spaced (n : Int) (t_ini t_end : ℝ) (time : ℕ → ℝ)
    (hn : 3 ≤ n) (ht : t_ini ≤ t_end) :
    (∀ i : ℕ, 1 ≤ i → (i : Int) < n →
      main_time n t_ini t_end time i = t_ini + (i : ℝ) * (t_end - t_ini) / ((n : ℝ) - 1)) ∧
    main_time n t_ini t_end time (n - 1).toNat = t_end ∧
    (t_ini = 0 → main_time n t_ini t_end time 0 = 0.01) ∧
    (t_ini ≠ 0 → main_time n t_ini t_end time 0 = t_ini) := by
  have hn1 : ((n : ℝ) - 1) ≠ 0 := by
    have : (3 : ℝ) ≤ (n : ℝ) := by exact_mod_cast hn
    intro h
    linarith
  have h0 : fill_time t_ini ((t_end - t_ini) / ((n - 1 : Int) : ℝ)) time n.toNat 0 = t_ini := by
    rw [fill_time_eq]
    have : 0 < n.toNat := by omega
    simp [this]
  have hi : ∀ i : ℕ, 1 ≤ i → (i : Int) < n →
      main_time n t_ini t_end time i = t_ini + (i : ℝ) * (t_end - t_ini) / ((n : ℝ) - 1) := by
    intro i h1 h2
    have hin : i < n.toNat := by omega
    have hi0 : i ≠ 0 := by omega
    unfold main_time
    simp only [h0]
    split
    · rw [Function.update_noteq hi0, fill_time_eq]
      simp only [hin, if_true]
      push_cast
      ring
    · rw [fill_time_eq]
      simp only [hin, if_true]
      push_cast
      ring
  refine ⟨hi, ?_, ?_, ?_⟩
  · have hc : (((n - 1).toNat : ℕ) : Int) = n - 1 := Int.toNat_of_nonneg (by omega)
    have hc2 : (((n - 1).toNat : ℕ) : ℝ) = (n : ℝ) - 1 := by
      have := congrArg (fun z : Int => (z : ℝ)) hc
      simpa using this
    rw [hi (n - 1).toNat (by omega) (by omega), hc2]
    field_simp
  · intro ht0
    unfold main_time
    simp only [h0]
    subst ht0
    norm_num
  · intro ht0
    unfold main_time
    simp only [h0]
    have : ¬ t_ini = 0.0 := by
      norm_num
      exact ht0
    simp only [this, if_false, h0]

theorem main_time_evenly_spaced_witness :
    (3 : Int) ≤ 3 ∧ (0 : ℝ) ≤ 2 ∧
    (∀ i : ℕ, 1 ≤ i → (i : Int) < 3 →
      main_time 3 0 2 (fun _ => 0) i = 0 + (i : ℝ) * (2 - 0) / (((3 : Int) : ℝ) - 1)) ∧
    main_time 3 0 2 (fun _ => 0) ((3 : Int) - 1).toNat = 2 ∧
    ((0 : ℝ) = 0 → main_time 3 0 2 (fun _ => 0) 0 = 0.01) ∧
    ((0 : ℝ) ≠ 0 → main_time 3 0 2 (fun _ => 0) 0 = 0) :=
  ⟨le_refl 3, by norm_num,
    main_time_evenly_spaced 3 0 2 (fun _ => 0) (le_refl 3) (by norm_num)⟩

/-! ## The command line -/

/-- Claim C18 fails on the code: the names `hybridModel` and `reactionDominantPure` pass
the comparisons of lines 403-405, but the array `m` has the 10 bytes of its initialiser
`"fullModel"`, and `strcpy(m, argv[2])` then writes 12 and 21 bytes.  On
`cFDAP -m hybridModel -i a -sd b -o c` the copy runs past the end of `m`, so `main` does
not go on with the model that was named; of the three names only `fullModel` is copied
within the array. -/
theorem select_model_overflow_example :
    "hybridModel".utf8ByteSize + 1 = 12 ∧
    "reactionDominantPure".utf8ByteSize + 1 = 21 ∧
    select_model ["cFDAP", "-m", "hybridModel", "-i", "a", "-sd", "b", "-o", "c"]
      = Except.error stop.undefined ∧
    select_model ["cFDAP", "-m", "reactionDominantPure", "-i", "a", "-sd", "b", "-o", "c"]
      = Except.error stop.undefined ∧
    (∀ (atof : String → double) (atoi : String → Int),
      main_arguments atof atoi ["cFDAP", "-m", "hybridModel", "-i", "a", "-sd", "b", "-o", "c"]
        = Except.error stop.undefined) ∧
    select_model ["cFDAP", "-m", "fullModel", "-i", "a", "-sd", "b", "-o", "c"]
      = Except.ok "fullModel" := by
  have h1 : select_model ["cFDAP", "-m", "hybridModel", "-i", "a", "-sd", "b", "-o", "c"]
      = Except.error stop.undefined := by rfl
  refine ⟨by decide, by decide, h1, by rfl, fun atof atoi => ?_, by rfl⟩
  unfold main_arguments
  rw [h1]

/-- Claim C19 fails on the code: the guard `Df <= 0.0` of line 429 is false for a value
that is not a number.  On `cFDAP -m fullModel -d nan -i a -sd b -o c`, where `atof`
returns NaN for `nan`, the arguments are accepted with `Df = NaN`, for which `Df > 0`
does not hold; the value `0` in the same place exits with the message of line 430. -/
theorem main_arguments_nan_example :
    main_arguments (fun v => if v = "nan" then double.nan else double.ofReal 0) (fun _ => 0)
      ["cFDAP", "-m", "fullModel", "-d", "nan", "-i", "a", "-sd", "b", "-o", "c"]
      = Except.ok { m := "fullModel", curve_name := "a", std_name := "b", output_prefix := "c",
                    n := 113, Df := double.nan, R := double.ofReal 3.0,
                    t_ini := double.ofReal 0.0, t_end := double.ofReal 112.0,
                    kon_init := double.ofReal 0.5, koff_init := double.ofReal 0.5 } ∧
    double.lt (double.ofReal 0) double.nan = false ∧
    main_arguments (fun v => if v = "nan" then double.nan else double.ofReal 0) (fun _ => 0)
      ["cFDAP", "-m", "fullModel", "-d", "0", "-i", "a", "-sd", "b", "-o", "c"]
      = Except.error
          (stop.exit "ERROR: Would a zero or negative diffusion constant make sense?\n\n" 1) := by
  have hs1 : select_model ["cFDAP", "-m", "fullModel", "-d", "nan", "-i", "a", "-sd", "b",
      "-o", "c"] = Except.ok "fullModel" := by rfl
  have hs2 : select_model ["cFDAP", "-m", "fullModel", "-d", "0", "-i", "a", "-sd", "b",
      "-o", "c"] = Except.ok "fullModel" := by rfl
  have ha : strcpy 80 "a" = Except.ok "a" := by rfl
  have hb : strcpy 80 "b" = Except.ok "b" := by rfl
  have hc : strcpy 80 "c" = Except.ok "c" := by rfl
  refine ⟨?_, by simp [double.lt], ?_⟩
  · unfold main_arguments
    rw [hs1]
    simp only [default_config]
    rw [parse_options]
    simp [option_body]
    rw [parse_options]
    simp [option_body, double.le]
    rw [parse_options]
    simp [option_body, ha, Except.map]
    rw [parse_options]
    simp [option_body, hb, Except.map]
    rw [parse_options]
    simp [option_body, hc, Except.map]
    rw [parse_options]
    simp [option_body]
  · unfold main_arguments
    rw [hs2]
    simp only [default_config]
    rw [parse_options]
    simp [option_body]
    rw [parse_options]
    simp [option_body, double.le, double.ofReal]
    norm_num

/-- Claim C20 fails on the code: the usage text shows `[-m model_type]` as optional with
`fullModel (default)`, and `main` initialises `m` to `fullModel`, but on the arguments
`cFDAP -i curve.dat -sd sd.dat -o out` the first argument is not `-m`, and `main` prints
`ERROR: Firstly, a model must be chosen.` and exits with status 1. -/
theorem main_arguments_without_model_example :
    default_config.m = "fullModel" ∧
    ∀ (atof : String → double) (atoi : String → Int),
      main_arguments atof atoi ["cFDAP", "-i", "curve.dat", "-sd", "sd.dat", "-o", "out"]
        = Except.error (stop.exit "ERROR: Firstly, a model must be chosen.\n\n" 1) := by
  refine ⟨rfl, fun atof atoi => ?_⟩
  simp [main_arguments, select_model]

/-! ## No binding, order of the sample times, and the time range of the command line -/

/-- Claim C21: with `kon = 0` the full and the reaction-dominant model are the pure
diffusion image: for `Re s > 0` and positive `koff`, `Df`, `R`,
`fullModel(s, 0, koff, Df, R) = reactionDominantPure(s, 0, koff, Df, R)
= effectiveDiffusion(s, 0, Df, R)` and
`fullModel_koff(s, 0, koff, Df, R) = reactionDominantPure_koff(s, 0, koff, Df, R) = 0`;
no divisor of these four source functions vanishes there. -/
theorem no_binding_is_pure_diffusion (s : ℂ) (koff Df R : ℝ) (hs : 0 < s.re)
    (hkoff : 0 < koff) (hDf : 0 < Df) (hR : 0 < R) :
    fullModel s 0 koff Df R = effectiveDiffusion s 0 Df R ∧
    reactionDominantPure s 0 koff Df R = effectiveDiffusion s 0 Df R ∧
    fullModel_koff s 0 koff Df R = 0 ∧
    reactionDominantPure_koff s 0 koff Df R = 0 ∧
    ∀ f ∈ [image_name.fullModel, image_name.reactionDominantPure,
        image_name.fullModel_koff, image_name.reactionDominantPure_koff],
      ∀ d ∈ image_name.divisors s 0 koff Df R f, d ≠ 0 := by
  have hkoff0 : (koff : ℂ) ≠ 0 := by exact_mod_cast hkoff.ne'
  refine ⟨?_, ?_, ?_, ?_, ?_⟩
  · simp [fullModel, effectiveDiffusion]
  · simp [reactionDominantPure, effectiveDiffusion, hkoff.ne', hkoff0]
  · simp [fullModel_koff]
  · simp [reactionDominantPure_koff, hkoff.ne', hkoff0]
  · generalize hk : (0 : ℝ) = kon
    have hkon : 0 ≤ kon := hk.le
    have hs0 : s ≠ 0 := ne_zero_of_re_pos hs
    have hsk : s + (koff : ℂ) ≠ 0 := add_ofReal_ne_zero hs hkoff.le
    have hDf0 : (Df : ℂ) ≠ 0 := by exact_mod_cast hDf.ne'
    have hK : ((kon + koff : ℝ) : ℂ) ≠ 0 := by
      have : (0 : ℝ) < kon + koff := by linarith
      exact_mod_cast this.ne'
    have h1 : ((1 + kon / koff : ℝ) : ℂ) ≠ 0 := by
      have : (0 : ℝ) < 1 + kon / koff := by positivity
      exact_mod_cast this.ne'
    have h2 : ((2 : ℝ) : ℂ) ≠ 0 := by norm_num
    have h4 : (4 : ℂ) ≠ 0 := by norm_num
    have qfull := csqrt_ne_zero
      (ne_zero_of_re_pos (fullArg_re_pos (s := s) hs hkon hkoff.le hDf hR))
    have qrdp := csqrt_ne_zero (ne_zero_of_re_pos (rdpArg_re_pos (s := s) hs hDf hR))
    simp only [image_name.divisors, List.mem_cons, List.mem_singleton, List.not_mem_nil,
      or_false, forall_eq_or_imp, forall_eq, ne_eq]
    (repeat' apply And.intro) <;> assumption

theorem no_binding_is_pure_diffusion_witness :
    (0 : ℝ) < (1 : ℂ).re ∧ (0 : ℝ) < 1 ∧
    fullModel 1 0 1 1 1 = effectiveDiffusion 1 0 1 1 ∧
    reactionDominantPure 1 0 1 1 1 = effectiveDiffusion 1 0 1 1 ∧
    fullModel_koff 1 0 1 1 1 = 0 ∧
    reactionDominantPure_koff 1 0 1 1 1 = 0 ∧
    ∀ f ∈ [image_name.fullModel, image_name.reactionDominantPure,
        image_name.fullModel_koff, image_name.reactionDominantPure_koff],
      ∀ d ∈ image_name.divisors 1 0 1 1 1 f, d ≠ 0 :=
  ⟨by simp, one_pos,
    no_binding_is_pure_diffusion 1 1 1 1 (by simp) one_pos one_pos one_pos⟩

/-- The array `time` of `main` entry by entry, for at least one sample. -/
theorem main_time_eq (n : Int) (t_ini t_end : ℝ) (time : ℕ → ℝ) (hn : 1 ≤ n) (i : ℕ) :
    main_time n t_ini t_end time i =
      if i = 0 then (if t_ini = 0 then 0.01 else t_ini)
      else if (i : Int) < n then t_ini + (i : ℝ) * ((t_end - t_ini) / ((n : ℝ) - 1))
      else time i := by
  have h0 : ∀ st : ℝ, fill_time t_ini st time n.toNat 0 = t_ini := by
    intro st
    rw [fill_time_eq]
    have : 0 < n.toNat := by omega
    simp [this]
  have hz : (t_ini = 0.0) ↔ t_ini = 0 := by norm_num
  unfold main_time
  simp only [h0, hz]
  by_cases hi : i = 0
  · subst hi
    by_cases ht : t_ini = 0
    · simp [ht]
    · simp [ht, h0]
  · have hlt : i < n.toNat ↔ (i : Int) < n := by omega
    have hval : fill_time t_ini ((t_end - t_ini) / ((n - 1 : Int) : ℝ)) time n.toNat i =
        if (i : Int) < n then t_ini + (i : ℝ) * ((t_end - t_ini) / ((n : ℝ) - 1))
        else time i := by
      rw [fill_time_eq]
      simp only [hlt]
      push_cast
      rfl
    rw [if_neg hi]
    split
    · rw [Function.update_noteq hi, hval]
    · exact hval

/-- Claim C22 fails as stated: for `n = 3`, `t_ini = 0`, `t_end = 0.01` the step is `0.005`,
so after `time[0]` is set to `0.01` the samples are `0.01, 0.005, 0.01` and
`time[1] < time[0]`. -/
theorem main_time_not_increasing_example :
    (3 : Int) ≤ 3 ∧ (0 : ℝ) ≤ 0 ∧ (0 : ℝ) < 0.01 ∧
    main_time 3 0 0.01 (fun _ => 0) 0 = 0.01 ∧
    main_time 3 0 0.01 (fun _ => 0) 1 = 0.005 ∧
    main_time 3 0 0.01 (fun _ => 0) 1 < main_time 3 0 0.01 (fun _ => 0) 0 := by
  have e0 : main_time 3 0 0.01 (fun _ => 0) 0 = 0.01 := by
    rw [main_time_eq 3 0 0.01 _ (by norm_num)]
    norm_num
  have e1 : main_time 3 0 0.01 (fun _ => 0) 1 = 0.005 := by
    rw [main_time_eq 3 0 0.01 _ (by norm_num)]
    norm_num
  refine ⟨le_refl 3, le_refl 0, by norm_num, e0, e1, ?_⟩
  rw [e0, e1]
  norm_num

/-- Claim C22, amended: for `n >= 3` and `0 <= t_ini < t_end` every sample time
`time[0], ..., time[n-1]` is strictly positive and the times increase strictly from
`time[1]` on, `time[1] < ... < time[n-1]`; and `time[0] < time[1]` holds exactly when
`t_ini` is not `0` or the step `(t_end - t_ini)/(n - 1)` is larger than `0.01`. -/
theorem main_time_positive_increasing (n : Int) (t_ini t_end : ℝ) (time : ℕ → ℝ)
    (hn : 3 ≤ n) (h0 : 0 ≤ t_ini) (ht : t_ini < t_end) :
    (∀ i : ℕ, (i : Int) < n → 0 < main_time n t_ini t_end time i) ∧
    (∀ i : ℕ, 1 ≤ i → (i : Int) + 1 < n →
      main_time n t_ini t_end time i < main_time n t_ini t_end time (i + 1)) ∧
    (main_time n t_ini t_end time 0 < main_time n t_ini t_end time 1 ↔
      t_ini ≠ 0 ∨ 0.01 < (t_end - t_ini) / ((n : ℝ) - 1)) := by
  have hn1 : (0 : ℝ) < (n : ℝ) - 1 := by
    have : (3 : ℝ) ≤ (n : ℝ) := by exact_mod_cast hn
    linarith
  have hstep : 0 < (t_end - t_ini) / ((n : ℝ) - 1) := div_pos (by linarith) hn1
  have hn' : (1 : Int) ≤ n := by omega
  refine ⟨?_, ?_, ?_⟩
  · intro i hi
    rw [main_time_eq n t_ini t_end time hn' i]
    by_cases hi0 : i = 0
    · rw [if_pos hi0]
      by_cases hz : t_ini = 0
      · rw [if_pos hz]
        norm_num
      · rw [if_neg hz]
        exact lt_of_le_of_ne h0 (Ne.symm hz)
    · rw [if_neg hi0, if_pos hi]
      have : (0 : ℝ) ≤ (i : ℝ) * ((t_end - t_ini) / ((n : ℝ) - 1)) :=
        mul_nonneg (Nat.cast_nonneg i) hstep.le
      have hi1 : (1 : ℝ) ≤ (i : ℝ) := by exact_mod_cast Nat.one_le_iff_ne_zero.mpr hi0
      nlinarith
  · intro i hi1 hi
    have hi0 : i ≠ 0 := by omega
    have hi' : (i : Int) < n := by omega
    have hi2 : ((i + 1 : ℕ) : Int) < n := by
      push_cast
      exact hi
    rw [main_time_eq n t_ini t_end time hn' i, main_time_eq n t_ini t_end time hn' (i + 1),
      if_neg hi0, if_pos hi', if_neg (Nat.succ_ne_zero i), if_pos hi2]
    push_cast
    linarith
  · have h1n : ((1 : ℕ) : Int) < n := by
      push_cast
      omega
    rw [main_time_eq n t_ini t_end time hn' 0, main_time_eq n t_ini t_end time hn' 1,
      if_pos rfl, if_neg one_ne_zero, if_pos h1n]
    by_cases hz : t_ini = 0
    · rw [if_pos hz]
      subst hz
      simp
    · rw [if_neg hz]
      constructor
      · intro _
        exact Or.inl hz
      · intro _
        push_cast
        linarith

theorem main_time_positive_increasing_witness :
    (3 : Int) ≤ 3 ∧ (0 : ℝ) ≤ 0 ∧ (0 : ℝ) < 2 ∧
    (∀ i : ℕ, (i : Int) < 3 → 0 < main_time 3 0 2 (fun _ => 0) i) ∧
    (∀ i : ℕ, 1 ≤ i → (i : Int) + 1 < 3 →
      main_time 3 0 2 (fun _ => 0) i < main_time 3 0 2 (fun _ => 0) (i + 1)) ∧
    (main_time 3 0 2 (fun _ => 0) 0 < main_time 3 0 2 (fun _ => 0) 1 ↔
      (0 : ℝ) ≠ 0 ∨ 0.01 < ((2 : ℝ) - 0) / (((3 : Int) : ℝ) - 1)) :=
  ⟨le_refl 3, le_refl 0, by norm_num,
    main_time_positive_increasing 3 0 2 (fun _ => 0) (le_refl 3) (le_refl 0) (by norm_num)⟩

/-- Claim C23 fails on the code: `-tend` is checked against the `t_ini` read so far, and
`-tini` only against `0`.  On `cFDAP -m fullModel -tend 5 -tini 10 -i a -sd b -o c` the
arguments are accepted with `t_ini = 10` and `t_end = 5`, while the same two values in
the other order, `-tini 10 -tend 5`, exit with `ERROR: Would t_end < t_ini make sense?`. -/
theorem main_arguments_time_range_example :
    main_arguments (fun v => if v = "10" then double.ofReal 10 else double.ofReal 5)
      (fun _ => 0)
      ["cFDAP", "-m", "fullModel", "-tend", "5", "-tini", "10", "-i", "a", "-sd", "b",
        "-o", "c"]
      = Except.ok { m := "fullModel", curve_name := "a", std_name := "b", output_prefix := "c",
                    n := 113, Df := double.ofReal 11.0, R := double.ofReal 3.0,
                    t_ini := double.ofReal 10, t_end := double.ofReal 5,
                    kon_init := double.ofReal 0.5, koff_init := double.ofReal 0.5 } ∧
    ¬ ((10 : ℝ) ≤ 5) ∧
    double.le (double.ofReal 10) (double.ofReal 5) = false ∧
    main_arguments (fun v => if v = "10" then double.ofReal 10 else double.ofReal 5)
      (fun _ => 0)
      ["cFDAP", "-m", "fullModel", "-tini", "10", "-tend", "5", "-i", "a", "-sd", "b",
        "-o", "c"]
      = Except.error (stop.exit "ERROR: Would t_end < t_ini make sense?\n\n" 1) := by
  have hs1 : select_model ["cFDAP", "-m", "fullModel", "-tend", "5", "-tini", "10", "-i",
      "a", "-sd", "b", "-o", "c"] = Except.ok "fullModel" := by rfl
  have hs2 : select_model ["cFDAP", "-m", "fullModel", "-tini", "10", "-tend", "5", "-i",
      "a", "-sd", "b", "-o", "c"] = Except.ok "fullModel" := by rfl
  have ha : strcpy 80 "a" = Except.ok "a" := by rfl
  have hb : strcpy 80 "b" = Except.ok "b" := by rfl
  have hc : strcpy 80 "c" = Except.ok "c" := by rfl
  refine ⟨?_, by norm_num, ?_, ?_⟩
  · unfold main_arguments
    rw [hs1]
    simp only [default_config]
    rw [parse_options]
    simp [option_body]
    rw [parse_options]
    simp [option_body, double.lt, double.ofReal]
    try norm_num
    rw [parse_options]
    simp [option_body, double.lt, double.ofReal]
    try norm_num
    rw [parse_options]
    simp [option_body, ha, Except.map]
    rw [parse_options]
    simp [option_body, hb, Except.map]
    rw [parse_options]
    simp [option_body, hc, Except.map]
    rw [parse_options]
    simp [option_body]
  · simp [double.le, double.ofReal]
    norm_num
  · unfold main_arguments
    rw [hs2]
    simp only [default_config]
    rw [parse_options]
    simp [option_body]
    rw [parse_options]
    simp [option_body, double.lt, double.ofReal]
    try norm_num
    rw [parse_options]
    simp [option_body, double.lt, double.ofReal]
    try norm_num

end cFDAP
